import Mathlib

/-!
Verification of the technical-indicator engine and the position-trading
scanner (`src/data/technical_indicators.py` and `src/data/kimi_scanner.py`).

The price data and all indicator arithmetic are embedded over exact
rationals.  Because pandas computes with IEEE floats, the value domain
`FVal` models the float behaviours the code relies on: `nan` (missing /
undefined values, produced by `diff`, incomplete rolling windows and 0/0),
`pinf`/`ninf` (division of a nonzero value by zero), and finite rationals.
Comparisons with `nan` are `false`, exactly as in numpy/pandas.

Rationals are represented by the unnormalised pair type `Q` (numerator,
positive denominator) so that every computation reduces in the kernel;
`Q.toRat` interprets a `Q` as a Mathlib rational and the `toRat_*` lemmas
transport each operation to ℚ.

Display-only behaviour of the source is not modelled: the `round(x, k)`
calls and `f"..."` number formatting applied when building result
dictionaries/strings are float presentation, so signal fields carry the
exact unrounded values and descriptions carry the static message text.
-/

/-- Unnormalised rational numbers: an integer numerator together with a
positive integer denominator.  No gcd normalisation is performed, so all
operations are plain integer arithmetic and reduce inside the kernel. -/
structure Q where
  num : ℤ
  den : ℤ
  dpos : 0 < den

namespace Q

instance : DecidableEq Q := fun a b =>
  decidable_of_iff (a.num = b.num ∧ a.den = b.den) (by
    cases a; cases b; simp)

/-- Build a `Q` from a numerator and denominator literal; a non-positive
denominator falls back to denominator 1 (never used with one). -/
def qOf (n d : ℤ) : Q :=
  if h : 0 < d then ⟨n, d, h⟩ else ⟨n, 1, by norm_num⟩

/-- The value of a `Q` as a Mathlib rational. -/
def toRat (a : Q) : ℚ := (a.num : ℚ) / (a.den : ℚ)

def add (a b : Q) : Q := ⟨a.num * b.den + b.num * a.den, a.den * b.den, mul_pos a.dpos b.dpos⟩

def neg (a : Q) : Q := ⟨-a.num, a.den, a.dpos⟩

def sub (a b : Q) : Q := add a (neg b)

def mul (a b : Q) : Q := ⟨a.num * b.num, a.den * b.den, mul_pos a.dpos b.dpos⟩

/-- Division.  Only meaningful for a nonzero divisor; the zero-divisor
case is intercepted at the `FVal` level (IEEE ±inf / nan) before this
function is reached, and falls back to `a` here. -/
def div (a b : Q) : Q :=
  if h : 0 < b.num then ⟨a.num * b.den, a.den * b.num, mul_pos a.dpos h⟩
  else if h2 : b.num < 0 then
    ⟨-(a.num * b.den), a.den * (-b.num), mul_pos a.dpos (by omega)⟩
  else a

def qabs (a : Q) : Q := ⟨|a.num|, a.den, a.dpos⟩

def ltB (a b : Q) : Bool := decide (a.num * b.den < b.num * a.den)

def leB (a b : Q) : Bool := decide (a.num * b.den ≤ b.num * a.den)

def isZero (a : Q) : Bool := a.num == 0

end Q



/-- IEEE-float-like values as pandas produces them: `nan` for missing or
undefined entries, `pinf`/`ninf` for the results of dividing a nonzero
value by zero, and exact finite rationals otherwise.  (`Q` has no signed
zero; every zero produced by the modelled code is `+0`, which matches the
divisions the code performs.) -/
inductive FVal where
  | nan : FVal
  | pinf : FVal
  | ninf : FVal
  | fin : Q → FVal
deriving DecidableEq

namespace FVal

def isNaN : FVal → Bool
  | nan => true
  | _ => false

def neg : FVal → FVal
  | nan => nan
  | pinf => ninf
  | ninf => pinf
  | fin q => fin q.neg

def add : FVal → FVal → FVal
  | nan, _ => nan
  | _, nan => nan
  | pinf, ninf => nan
  | ninf, pinf => nan
  | pinf, _ => pinf
  | _, pinf => pinf
  | ninf, _ => ninf
  | _, ninf => ninf
  | fin a, fin b => fin (a.add b)

def sub (a b : FVal) : FVal := add a b.neg

def mul : FVal → FVal → FVal
  | nan, _ => nan
  | _, nan => nan
  | pinf, pinf => pinf
  | pinf, ninf => ninf
  | ninf, pinf => ninf
  | ninf, ninf => pinf
  | pinf, fin q => if q.num = 0 then nan else if 0 < q.num then pinf else ninf
  | fin q, pinf => if q.num = 0 then nan else if 0 < q.num then pinf else ninf
  | ninf, fin q => if q.num = 0 then nan else if 0 < q.num then ninf else pinf
  | fin q, ninf => if q.num = 0 then nan else if 0 < q.num then ninf else pinf
  | fin a, fin b => fin (a.mul b)

def div : FVal → FVal → FVal
  | nan, _ => nan
  | _, nan => nan
  | pinf, pinf => nan
  | pinf, ninf => nan
  | ninf, pinf => nan
  | ninf, ninf => nan
  | fin _, pinf => fin (Q.qOf 0 1)
  | fin _, ninf => fin (Q.qOf 0 1)
  | pinf, fin q => if q.num < 0 then ninf else pinf
  | ninf, fin q => if q.num < 0 then pinf else ninf
  | fin a, fin b =>
      if b.num = 0 then
        if a.num = 0 then nan else if a.num < 0 then ninf else pinf
      else fin (a.div b)

def fabs : FVal → FVal
  | nan => nan
  | pinf => pinf
  | ninf => pinf
  | fin q => fin q.qabs

/-- IEEE `<`: any comparison with `nan` is false. -/
def lt : FVal → FVal → Bool
  | nan, _ => false
  | _, nan => false
  | pinf, _ => false
  | _, pinf => true
  | ninf, ninf => false
  | ninf, _ => true
  | _, ninf => false
  | fin a, fin b => a.ltB b

/-- IEEE `≤`: any comparison with `nan` is false. -/
def le : FVal → FVal → Bool
  | nan, _ => false
  | _, nan => false
  | ninf, _ => true
  | _, ninf => false
  | _, pinf => true
  | pinf, _ => false
  | fin a, fin b => a.leB b

def gt (a b : FVal) : Bool := lt b a

def ge (a b : FVal) : Bool := le b a

/-- Row-wise maximum of two values skipping NaN, as used by
`pd.concat([...], axis=1).max(axis=1)` (skipna default). -/
def maxSkipNaN (a b : FVal) : FVal :=
  if a.isNaN then b else if b.isNaN then a else if lt a b then b else a

/-- Maximum of non-NaN values, with `ninf` as the neutral element. -/
def maxF (a b : FVal) : FVal := if lt a b then b else a

/-- Minimum of non-NaN values, with `pinf` as the neutral element. -/
def minF (a b : FVal) : FVal := if lt b a then b else a

/-- Sum of a list of values (IEEE addition folded right). -/
def sumF (l : List FVal) : FVal := l.foldr add (fin (Q.qOf 0 1))

end FVal

/-- Shorthand for finite rational `FVal` literals, `fv n d` = n/d. -/
def fv (n d : ℤ) : FVal := FVal.fin (Q.qOf n d)

/-!
Pandas series operations.  A column is a total function `ℕ → FVal`; a
frame additionally records the row count `n`, and code only ever reads
indices `< n`.  Rolling windows use pandas defaults (`min_periods =
window`), so a window that is incomplete or contains a NaN yields NaN.
-/

/-- A pandas column over the frame's row index. -/
abbrev Col := ℕ → FVal

namespace PandasOps

/-- Pandas `series.diff()`: first entry NaN, then successive differences. -/
def diffC (x : Col) : Col := fun i =>
  if i = 0 then .nan else FVal.sub (x i) (x (i - 1))

/-- Pandas `series.shift()`: first entry NaN, then the previous entry. -/
def shiftC (x : Col) : Col := fun i =>
  if i = 0 then .nan else x (i - 1)

/-- Pandas `series.where(mask, other)`: keep entries where the boolean mask is
true, replace the rest (NaN comparisons are false, so NaN entries whose
mask is a NaN comparison get replaced). -/
def whereC (mask : ℕ → Bool) (x : Col) (other : FVal) : Col := fun i =>
  if mask i then x i else other

/-- In-place masked assignment `s[s < 0] = 0`: entries satisfying the mask
are replaced, all others (NaN included) are kept. -/
def maskAssign (mask : ℕ → Bool) (x : Col) (other : FVal) : Col := fun i =>
  if mask i then other else x i

/-- The window of the `w` entries ending at index `i` (only used when
`w ≤ i + 1`). -/
def window (w : ℕ) (x : Col) (i : ℕ) : List FVal :=
  (List.range w).map (fun k => x (i + 1 - w + k))

/-- Pandas `series.rolling(window=w).mean()` with the default
`min_periods = w`: NaN while the window is incomplete or contains NaN. -/
def rollingMean (w : ℕ) (x : Col) : Col := fun i =>
  if i + 1 < w then .nan
  else
    let l := window w x i
    if l.any FVal.isNaN then .nan
    else FVal.div (FVal.sumF l) (fv (w : ℤ) 1)

/-- Pandas `series.rolling(window=w).max()` with the default `min_periods = w`. -/
def rollingMax (w : ℕ) (x : Col) : Col := fun i =>
  if i + 1 < w then .nan
  else
    let l := window w x i
    if l.any FVal.isNaN then .nan
    else l.foldr FVal.maxF .ninf

/-- Pandas `series.rolling(window=w).min()` with the default `min_periods = w`. -/
def rollingMin (w : ℕ) (x : Col) : Col := fun i =>
  if i + 1 < w then .nan
  else
    let l := window w x i
    if l.any FVal.isNaN then .nan
    else l.foldr FVal.minF .pinf

/-- Pandas `series.ewm(span=s, adjust=False).mean()`:
`y 0 = x 0`, `y i = (1-α) * y (i-1) + α * x i` with `α = 2/(s+1)`. -/
def ewmAdjFalse (span : ℕ) (x : Col) : Col := fun i =>
  Nat.rec (x 0)
    (fun j y =>
      FVal.add (FVal.mul y (fv ((span : ℤ) - 1) ((span : ℤ) + 1)))
        (FVal.mul (x (j + 1)) (fv 2 ((span : ℤ) + 1))))
    i

/-- Pandas `series.pct_change(periods=p)`: `x i / x (i-p) - 1`, NaN for the
first `p` entries. -/
def pctChange (p : ℕ) (x : Col) : Col := fun i =>
  if i < p then .nan
  else FVal.sub (FVal.div (x i) (x (i - p))) (fv 1 1)

/-- The indices selected by `series.tail(k)` on a frame of `n` rows. -/
def tailIdx (n k : ℕ) : List ℕ :=
  (List.range (min k n)).map (fun j => n - min k n + j)

/-- Pandas `series.tail(k).mean()`: skipna mean of the last `k` entries
(NaN when all of them are NaN). -/
def tailMean (n k : ℕ) (x : Col) : FVal :=
  let l := ((tailIdx n k).map x).filter (fun v => !v.isNaN)
  if l.isEmpty then .nan
  else FVal.div (FVal.sumF l) (fv (l.length : ℤ) 1)

/-- Pandas `series.tail(k).max()`: skipna maximum of the last `k` entries. -/
def tailMax (n k : ℕ) (x : Col) : FVal :=
  let l := ((tailIdx n k).map x).filter (fun v => !v.isNaN)
  if l.isEmpty then .nan else l.foldr FVal.maxF .ninf

/-- Pandas `series.tail(k).min()`: skipna minimum of the last `k` entries. -/
def tailMin (n k : ℕ) (x : Col) : FVal :=
  let l := ((tailIdx n k).map x).filter (fun v => !v.isNaN)
  if l.isEmpty then .nan else l.foldr FVal.minF .pinf

end PandasOps

/-- One OHLCV trading bar (`PriceBar` of the data model: open/high/low/close
prices and an integer volume). -/
structure Bar where
  opn : Q
  high : Q
  low : Q
  close : Q
  volume : ℤ
deriving DecidableEq

instance : Inhabited Bar := ⟨⟨Q.qOf 0 1, Q.qOf 0 1, Q.qOf 0 1, Q.qOf 0 1, 0⟩⟩

/-- The `close` column of a bar series. -/
def closeCol (s : List Bar) : Col := fun i => .fin (s.getD i default).close

/-- The `high` column of a bar series. -/
def highCol (s : List Bar) : Col := fun i => .fin (s.getD i default).high

/-- The `low` column of a bar series. -/
def lowCol (s : List Bar) : Col := fun i => .fin (s.getD i default).low

/-- The `volume` column of a bar series. -/
def volumeCol (s : List Bar) : Col := fun i => .fin (Q.qOf (s.getD i default).volume 1)

namespace Kimi

open PandasOps FVal

/-- The DataFrame produced by `KimiScanner.calculate_indicators`: the raw
OHLCV columns plus every derived indicator column a strategy reads.
(`EMA_20`/`EMA_50` are computed by the source but read by no strategy and
no claim; they are not carried.) -/
structure KimiFrame where
  n : ℕ
  close : Col
  high : Col
  low : Col
  volume : Col
  SMA_50 : Col
  SMA_150 : Col
  SMA_200 : Col
  SMA_10w : Col
  SMA_30w : Col
  SMA_40w : Col
  RSI : Col
  Vol_SMA_20 : Col
  Vol_Ratio : Col
  Vol_SMA_50 : Col
  ADX : Col
  Returns_3m : Col
  Returns_6m : Col
  High52w : Col
  Low52w : Col
  Pct52w : Col

/-- Embeds `KimiScanner.calculate_indicators` (kimi_scanner.py lines 45-101),
column by column in source order. -/
def calculate_indicators (s : List Bar) : KimiFrame :=
  let close := closeCol s
  let high := highCol s
  let low := lowCol s
  let volume := volumeCol s
  let SMA_50 := rollingMean 50 close
  let SMA_150 := rollingMean 150 close
  let SMA_200 := rollingMean 200 close
  let SMA_10w := rollingMean 50 close
  let SMA_30w := rollingMean 150 close
  let SMA_40w := rollingMean 200 close
  let delta := diffC close
  let gain := rollingMean 14 (whereC (fun i => gt (delta i) (fv 0 1)) delta (fv 0 1))
  let loss := rollingMean 14
    (fun i => FVal.neg (whereC (fun j => lt (delta j) (fv 0 1)) delta (fv 0 1) i))
  let RSI := fun i =>
    FVal.sub (fv 100 1) (FVal.div (fv 100 1) (FVal.add (fv 1 1) (FVal.div (gain i) (loss i))))
  let Vol_SMA_20 := rollingMean 20 volume
  let Vol_Ratio := fun i => FVal.div (volume i) (Vol_SMA_20 i)
  let Vol_SMA_50 := rollingMean 50 volume
  let high_low := fun i => FVal.sub (high i) (low i)
  let high_close := fun i => fabs (FVal.sub (high i) (shiftC close i))
  let low_close := fun i => fabs (FVal.sub (low i) (shiftC close i))
  let tr := fun i => maxSkipNaN (high_low i) (maxSkipNaN (high_close i) (low_close i))
  let plus_dm0 := diffC high
  let minus_dm0 := fun i => fabs (diffC low i)
  let plus_dm1 := whereC (fun i => gt (plus_dm0 i) (fv 0 1)) plus_dm0 (fv 0 1)
  let minus_dm1 := whereC (fun i => gt (minus_dm0 i) (fv 0 1)) minus_dm0 (fv 0 1)
  let plus_dm := whereC (fun i => gt (plus_dm1 i) (minus_dm1 i)) plus_dm1 (fv 0 1)
  let minus_dm := whereC (fun i => gt (minus_dm1 i) (plus_dm i)) minus_dm1 (fv 0 1)
  let atr := rollingMean 14 tr
  let plus_di := fun i => FVal.mul (fv 100 1) (FVal.div (rollingMean 14 plus_dm i) (atr i))
  let minus_di := fun i => FVal.mul (fv 100 1) (FVal.div (rollingMean 14 minus_dm i) (atr i))
  let dx := fun i =>
    FVal.mul
      (FVal.div (fabs (FVal.sub (plus_di i) (minus_di i)))
        (FVal.add (FVal.add (plus_di i) (minus_di i)) (fv 1 10000)))
      (fv 100 1)
  let ADX := rollingMean 14 dx
  let Returns_3m := fun i => FVal.mul (pctChange 63 close i) (fv 100 1)
  let Returns_6m := fun i => FVal.mul (pctChange 126 close i) (fv 100 1)
  let High52w := rollingMax 252 close
  let Low52w := rollingMin 252 close
  let Pct52w := fun i => FVal.mul (FVal.sub (FVal.div (close i) (High52w i)) (fv 1 1)) (fv 100 1)
  ⟨s.length, close, high, low, volume, SMA_50, SMA_150, SMA_200, SMA_10w, SMA_30w, SMA_40w,
    RSI, Vol_SMA_20, Vol_Ratio, Vol_SMA_50, ADX, Returns_3m, Returns_6m, High52w, Low52w, Pct52w⟩

/-- Result of `KimiScanner.detect_stage`. -/
structure StageInfo where
  is_stage_2 : Bool
  stage : ℕ
deriving DecidableEq

/-- Embeds `KimiScanner.detect_stage` (kimi_scanner.py lines 103-144): the
Weinstein stage of the frame's last row. -/
def detect_stage (df : KimiFrame) : StageInfo :=
  let cur := df.n - 1
  let price := df.close cur
  let sma_30w := df.SMA_30w cur
  let sma_40w := df.SMA_40w cur
  let sma_50 := df.SMA_50 cur
  let sma_150 := df.SMA_150 cur
  let sma_200 := df.SMA_200 cur
  let is_stage_2 :=
    gt price sma_30w && gt price sma_40w && gt sma_30w sma_40w &&
    gt price sma_50 && gt price sma_150 && gt price sma_200 && gt sma_50 sma_200
  let stage :=
    if is_stage_2 then 2
    else if lt price sma_30w && gt price sma_40w then 1
    else if lt price sma_30w && lt price sma_40w then 4
    else 3
  ⟨is_stage_2, stage⟩

/-- A produced strategy signal.  The source emits a Python dict whose keys
differ per strategy; fields a strategy does not set default to NaN/0.
Numeric fields carry exact values (the source's display rounding and the
`risk_pct` percent-formatting are presentation only). -/
structure StrategySignal where
  symbol : String
  strategy : String
  signal : String
  entry : FVal
  stop : FVal
  target : FVal
  risk_reward : FVal := .nan
  risk_pct : FVal := .nan
  rsi : FVal := .nan
  adx : FVal := .nan
  vol_ratio : FVal := .nan
  pct_from_high : FVal := .nan
  returns_3m : FVal := .nan
  returns_6m : FVal := .nan
  stage : ℕ := 0
  confidence : String
deriving DecidableEq

/-- Embeds `KimiScanner.strategy_stage2_breakout` (kimi_scanner.py lines 146-190). -/
def strategy_stage2_breakout (df : KimiFrame) (symbol : String) : Option StrategySignal :=
  let cur := df.n - 1
  let vol_confirmed := gt (df.Vol_Ratio cur) (fv 2 1)
  let near_high := gt (df.Pct52w cur) (fv (-10) 1)
  let adx_strong := gt (df.ADX cur) (fv 25 1)
  let stage_info := detect_stage df
  let rsi_ok := lt (df.RSI cur) (fv 70 1)
  if stage_info.is_stage_2 && vol_confirmed && near_high && adx_strong && rsi_ok then
    let entry_price := df.close cur
    let stop_loss := FVal.mul (df.SMA_30w cur) (fv 95 100)
    let target := FVal.mul entry_price (fv 140 100)
    let risk := FVal.div (FVal.sub entry_price stop_loss) entry_price
    let reward := fv 40 100
    some
      { symbol := symbol
        strategy := "stage2_breakout"
        signal := "BUY"
        entry := entry_price
        stop := stop_loss
        target := target
        risk_reward := if gt risk (fv 0 1) then FVal.div reward risk else fv 0 1
        rsi := df.RSI cur
        adx := df.ADX cur
        vol_ratio := df.Vol_Ratio cur
        pct_from_high := df.Pct52w cur
        stage := stage_info.stage
        confidence := if gt (df.Vol_Ratio cur) (fv 3 1) then "HIGH" else "MEDIUM" }
  else none

/-- Embeds `KimiScanner.strategy_canslim` (kimi_scanner.py lines 192-233). -/
def strategy_canslim (df : KimiFrame) (symbol : String) : Option StrategySignal :=
  let cur := df.n - 1
  let new_highs := gt (df.Pct52w cur) (fv (-5) 1)
  let volume_trend := gt (tailMean df.n 20 df.Vol_Ratio) (fv 12 10)
  let price_momentum := gt (df.Returns_3m cur) (fv 15 1)
  let recent_high := tailMax df.n 20 df.close
  let recent_low := tailMin df.n 20 df.close
  let tight_range :=
    lt (FVal.div (FVal.sub recent_high recent_low) (tailMean df.n 20 df.close)) (fv 8 100)
  let breakout := gt (df.close cur) (FVal.mul recent_high (fv 98 100))
  let rsi_ok := lt (df.RSI cur) (fv 65 1)
  if new_highs && volume_trend && price_momentum && (tight_range || breakout) && rsi_ok then
    let entry := df.close cur
    let stop := FVal.mul (df.SMA_50 cur) (fv 93 100)
    let target := FVal.mul entry (fv 135 100)
    some
      { symbol := symbol
        strategy := "canslim"
        signal := "BUY"
        entry := entry
        stop := stop
        target := target
        returns_3m := df.Returns_3m cur
        rsi := df.RSI cur
        pct_from_high := df.Pct52w cur
        vol_ratio := df.Vol_Ratio cur
        confidence := if gt (df.Vol_Ratio cur) (fv 25 10) then "HIGH" else "MEDIUM" }
  else none

/-- Embeds `KimiScanner.strategy_monthly_trend` (kimi_scanner.py lines 235-279). -/
def strategy_monthly_trend (df : KimiFrame) (symbol : String) : Option StrategySignal :=
  if df.n < 252 then none
  else
    let cur := df.n - 1
    let ma_aligned :=
      gt (df.close cur) (df.SMA_50 cur) && gt (df.SMA_50 cur) (df.SMA_200 cur) &&
      gt (df.SMA_200 (df.n - 1)) (df.SMA_200 (df.n - 63))
    let momentum := gt (df.Returns_6m cur) (fv 25 1)
    let near_support :=
      lt (fabs (FVal.sub (FVal.div (df.close cur) (df.SMA_50 cur)) (fv 1 1))) (fv 3 100)
    let adx_ok := gt (df.ADX cur) (fv 20 1)
    if ma_aligned && momentum && near_support && adx_ok then
      let entry := df.close cur
      let stop := df.SMA_200 cur
      let target := FVal.mul entry (fv 160 100)
      some
        { symbol := symbol
          strategy := "monthly_trend"
          signal := "BUY"
          entry := entry
          stop := stop
          target := target
          risk_pct := FVal.div (FVal.sub entry stop) entry
          returns_6m := df.Returns_6m cur
          rsi := df.RSI cur
          adx := df.ADX cur
          confidence := "MEDIUM" }
    else none

/-- Embeds `KimiScanner.load_ohlcv` (kimi_scanner.py lines 37-43): the storage
collaborator is abstracted as a `load` function; series shorter than 200
bars are rejected. -/
def load_ohlcv (load : String → Option (List Bar)) (symbol : String) : Option (List Bar) :=
  match load symbol with
  | some df => if 200 ≤ df.length then some df else none
  | none => none

/-- Embeds `KimiScanner.scan_symbol` (kimi_scanner.py lines 281-303): run the
three strategies in order, collecting the produced signals. -/
def scan_symbol (load : String → Option (List Bar)) (symbol : String) : List StrategySignal :=
  match load_ohlcv load symbol with
  | none => []
  | some bars =>
      let df := calculate_indicators bars
      (strategy_stage2_breakout df symbol).toList ++
      (strategy_canslim df symbol).toList ++
      (strategy_monthly_trend df symbol).toList

/-- Code-point lexicographic order on character lists — the order Python
uses when comparing the `symbol` strings in the sort key. -/
def lexLE : List Char → List Char → Bool
  | [], _ => true
  | _ :: _, [] => false
  | a :: as, b :: bs => if a < b then true else if b < a then false else lexLE as bs

/-- String order used by the sort key (code-point lexicographic). -/
def symLE (a b : String) : Bool := lexLE a.data b.data

/-- The dict `confidence_order = {'HIGH': 0, 'MEDIUM': 1, 'LOW': 2}` together with
the `.get(..., 2)` default (kimi_scanner.py line 343). -/
def confidence_order (c : String) : ℕ :=
  if c = "HIGH" then 0 else if c = "MEDIUM" then 1 else 2

/-- The sort key comparison of `scan_all`: ascending
`(confidence_order[confidence], symbol)` (kimi_scanner.py line 344). -/
def sigLE (a b : StrategySignal) : Bool :=
  decide (confidence_order a.confidence < confidence_order b.confidence) ||
    (decide (confidence_order a.confidence = confidence_order b.confidence) &&
      symLE a.symbol b.symbol)

/-- Insert into an ascending list after all entries `≤` the new one. -/
def insSorted (le : α → α → Bool) (x : α) : List α → List α
  | [] => [x]
  | y :: ys => if le y x then y :: insSorted le x ys else x :: y :: ys

/-- Stable ascending sort (insertion sort).  Python's `list.sort` is a
stable ascending sort by the key; any stable sort computes the same list,
so this models it exactly. -/
def stableSort (le : α → α → Bool) (l : List α) : List α :=
  l.foldl (fun acc x => insSorted le x acc) []

/-- The scan metadata of `scan_all`.  The source also stamps wall-clock
`scan_date`/`scan_time` strings (ambient time, outside the model), and its
empty-universe early return carries only an empty signal list — modelled
here as zero counts with no signals. -/
structure ScanResult where
  total_scanned : ℕ
  total_signals : ℕ
  signals : List StrategySignal
deriving DecidableEq

/-- The per-symbol loop of `scan_all` (kimi_scanner.py lines 327-340):
each symbol is evaluated inside `try/except`; on success its signals
extend the list and the scanned counter increments, on an exception the
symbol is skipped.  The per-symbol evaluation is abstracted as an
`Except`-valued function so that the exception path is expressible. -/
def scanLoop (evalSym : String → Except String (List StrategySignal)) :
    List String → List StrategySignal × ℕ :=
  List.foldl
    (fun acc s =>
      match evalSym s with
      | .ok sigs => (acc.1 ++ sigs, acc.2 + 1)
      | .error _ => acc)
    ([], 0)

/-- Embeds `KimiScanner.scan_all` (kimi_scanner.py lines 305-355) over an
abstract per-symbol evaluator: loop over the universe, then sort all
collected signals by ascending `(confidence rank, symbol)`. -/
def scanAllWith (evalSym : String → Except String (List StrategySignal))
    (symbols : List String) : ScanResult :=
  if symbols.isEmpty then ⟨0, 0, []⟩
  else
    let acc := scanLoop evalSym symbols
    let sorted := stableSort sigLE acc.1
    ⟨acc.2, sorted.length, sorted⟩

/-- Instantiates `scan_all` with the real per-symbol evaluation `scan_symbol`. -/
def scan_all (load : String → Option (List Bar)) (symbols : List String) : ScanResult :=
  scanAllWith (fun s => .ok (scan_symbol load s)) symbols

end Kimi

namespace TA

open PandasOps FVal

/-- Trading signal types (`Signal` enum). -/
inductive Signal where
  | STRONG_BUY : Signal
  | BUY : Signal
  | NEUTRAL : Signal
  | SELL : Signal
  | STRONG_SELL : Signal
deriving DecidableEq

/-- Result from a technical indicator (`IndicatorResult`).  `value` holds
the exact unrounded number; descriptions carry the static message text
(the interpolated numbers are display formatting). -/
structure IndicatorResult where
  name : String
  value : FVal
  signal : Signal
  description : String
deriving DecidableEq

/-- Integer square root surrogate for the Bollinger σ.  `std()` is the
only irrational operation in the source; no claim depends on Bollinger
numeric values, only on their NaN-ness, which this preserves (it maps a
finite nonnegative rational to a finite nonnegative rational). -/
def qSqrtApprox (q : Q) : Q :=
  Q.qOf (Nat.sqrt q.num.toNat : ℤ) (Nat.sqrt q.den.toNat : ℤ)

/-- Pandas `series.rolling(window=w).std()` (ddof=1): NaN on an incomplete or
NaN-containing window, otherwise the square root of the sample variance
(square root via the `qSqrtApprox` surrogate). -/
def rollingStd (w : ℕ) (x : Col) : Col := fun i =>
  if i + 1 < w then .nan
  else
    let l := window w x i
    if l.any FVal.isNaN then .nan
    else
      let m := FVal.div (FVal.sumF l) (fv (w : ℤ) 1)
      let sq := l.map (fun v => FVal.mul (FVal.sub v m) (FVal.sub v m))
      match FVal.div (FVal.sumF sq) (fv ((w : ℤ) - 1) 1) with
      | .fin q => .fin (qSqrtApprox q)
      | v => v

/-- The DataFrame held by a `TechnicalAnalyzer`: raw OHLCV columns plus
every indicator column the `analyze_*` methods read.  (`bb_width`,
`momentum` and `roc` are computed by the source but read by no analyzer
and no claim; they are not carried.) -/
structure TFrame where
  n : ℕ
  close : Col
  high : Col
  low : Col
  volume : Col
  sma_20 : Col
  sma_50 : Col
  sma_200 : Col
  ema_9 : Col
  ema_21 : Col
  rsi : Col
  macd : Col
  macd_sig : Col
  macd_histogram : Col
  bb_middle : Col
  bb_upper : Col
  bb_lower : Col
  stoch_k : Col
  stoch_d : Col
  atr : Col
  obv : Col
  volume_sma : Col
  adx : Col
  plus_di : Col
  minus_di : Col

/-- The OBV forward accumulation (technical_indicators.py lines 126-135):
`obv[0] = 0`, then add/subtract the volume on up/down closes. -/
def obvF (close volume : Col) : Col := fun i =>
  Nat.rec (fv 0 1)
    (fun j acc =>
      if gt (close (j + 1)) (close j) then FVal.add acc (volume (j + 1))
      else if lt (close (j + 1)) (close j) then FVal.sub acc (volume (j + 1))
      else acc)
    i

/-- Embeds `TechnicalAnalyzer._calculate_indicators` and `_calculate_adx`
(technical_indicators.py lines 78-171), column by column in source order.
The `astype` conversions of `_ensure_columns` are identities here: prices
are already numeric and volume is an integer. -/
def technicalFrame (s : List Bar) : TFrame :=
  let close := closeCol s
  let high := highCol s
  let low := lowCol s
  let volume := volumeCol s
  let sma_20 := rollingMean 20 close
  let sma_50 := rollingMean 50 close
  let sma_200 := rollingMean 200 close
  let ema_9 := ewmAdjFalse 9 close
  let ema_21 := ewmAdjFalse 21 close
  let delta := diffC close
  let gain := rollingMean 14 (whereC (fun i => gt (delta i) (fv 0 1)) delta (fv 0 1))
  let loss := rollingMean 14
    (fun i => FVal.neg (whereC (fun j => lt (delta j) (fv 0 1)) delta (fv 0 1) i))
  let rsi := fun i =>
    FVal.sub (fv 100 1) (FVal.div (fv 100 1) (FVal.add (fv 1 1) (FVal.div (gain i) (loss i))))
  let exp1 := ewmAdjFalse 12 close
  let exp2 := ewmAdjFalse 26 close
  let macd := fun i => FVal.sub (exp1 i) (exp2 i)
  let macd_sig := ewmAdjFalse 9 macd
  let macd_histogram := fun i => FVal.sub (macd i) (macd_sig i)
  let bb_middle := rollingMean 20 close
  let bb_std := rollingStd 20 close
  let bb_upper := fun i => FVal.add (bb_middle i) (FVal.mul (bb_std i) (fv 2 1))
  let bb_lower := fun i => FVal.sub (bb_middle i) (FVal.mul (bb_std i) (fv 2 1))
  let low_14 := rollingMin 14 low
  let high_14 := rollingMax 14 high
  let stoch_k := fun i =>
    FVal.div (FVal.mul (fv 100 1) (FVal.sub (close i) (low_14 i)))
      (FVal.sub (high_14 i) (low_14 i))
  let stoch_d := rollingMean 3 stoch_k
  let tr1 := fun i => FVal.sub (high i) (low i)
  let tr2 := fun i => fabs (FVal.sub (high i) (shiftC close i))
  let tr3 := fun i => fabs (FVal.sub (low i) (shiftC close i))
  let tr := fun i => maxSkipNaN (tr1 i) (maxSkipNaN (tr2 i) (tr3 i))
  let atr := rollingMean 14 tr
  let obv := obvF close volume
  let volume_sma := rollingMean 20 volume
  let plus_dm0 := diffC high
  let minus_dm0 := diffC low
  let plus_dm := maskAssign (fun i => lt (plus_dm0 i) (fv 0 1)) plus_dm0 (fv 0 1)
  let minus_dm := maskAssign (fun i => gt (minus_dm0 i) (fv 0 1)) minus_dm0 (fv 0 1)
  let adx_atr := rollingMean 14 tr
  let plus_di := fun i => FVal.mul (fv 100 1) (FVal.div (rollingMean 14 plus_dm i) (adx_atr i))
  let minus_di := fun i =>
    fabs (FVal.mul (fv 100 1) (FVal.div (rollingMean 14 minus_dm i) (adx_atr i)))
  let dx := fun i =>
    FVal.div (FVal.mul (fv 100 1) (fabs (FVal.sub (plus_di i) (minus_di i))))
      (FVal.add (plus_di i) (minus_di i))
  let adx := rollingMean 14 dx
  ⟨s.length, close, high, low, volume, sma_20, sma_50, sma_200, ema_9, ema_21, rsi,
    macd, macd_sig, macd_histogram, bb_middle, bb_upper, bb_lower, stoch_k, stoch_d,
    atr, obv, volume_sma, adx, plus_di, minus_di⟩

/-- The input DataFrame at the `TechnicalAnalyzer` constructor boundary:
the bar rows together with which of the five required columns are
present. -/
structure RawFrame where
  bars : List Bar
  hasOpen : Bool
  hasHigh : Bool
  hasLow : Bool
  hasClose : Bool
  hasVolume : Bool

/-- Embeds `TechnicalAnalyzer.__init__` (technical_indicators.py lines 55-64):
copy the frame, check required columns in order
(`_ensure_columns`), then compute all indicator columns.  On an empty
frame with all columns present, `self.df["obv"] = obv` (line 135) assigns
a length-1 list to a 0-row frame — a pandas length-mismatch `ValueError`,
raised here as the corresponding error. -/
def mkTechnicalAnalyzer (rf : RawFrame) : Except String TFrame :=
  if rf.hasOpen = false then .error ("Missing required column: " ++ "open")
  else if rf.hasHigh = false then .error ("Missing required column: " ++ "high")
  else if rf.hasLow = false then .error ("Missing required column: " ++ "low")
  else if rf.hasClose = false then .error ("Missing required column: " ++ "close")
  else if rf.hasVolume = false then .error ("Missing required column: " ++ "volume")
  else if rf.bars.isEmpty then .error "Length of values (1) does not match length of index (0)"
  else .ok (technicalFrame rf.bars)

/-- Embeds `TechnicalAnalyzer.analyze_rsi` (technical_indicators.py lines 182-205). -/
def analyze_rsi (f : TFrame) : IndicatorResult :=
  let rsi := f.rsi (f.n - 1)
  if rsi.isNaN then ⟨"RSI", fv 0 1, .NEUTRAL, "Insufficient data"⟩
  else if lt rsi (fv 20 1) then
    ⟨"RSI", rsi, .STRONG_BUY, "Extremely oversold, potential reversal"⟩
  else if lt rsi (fv 30 1) then ⟨"RSI", rsi, .BUY, "Oversold condition"⟩
  else if gt rsi (fv 80 1) then
    ⟨"RSI", rsi, .STRONG_SELL, "Extremely overbought, potential reversal"⟩
  else if gt rsi (fv 70 1) then ⟨"RSI", rsi, .SELL, "Overbought condition"⟩
  else ⟨"RSI", rsi, .NEUTRAL, "Neutral zone"⟩

/-- Embeds `TechnicalAnalyzer.analyze_macd` (technical_indicators.py lines 207-237). -/
def analyze_macd (f : TFrame) : IndicatorResult :=
  let macd := f.macd (f.n - 1)
  let signal_line := f.macd_sig (f.n - 1)
  let histogram := f.macd_histogram (f.n - 1)
  let prev_histogram := if 1 < f.n then f.macd_histogram (f.n - 2) else fv 0 1
  if macd.isNaN || signal_line.isNaN then ⟨"MACD", fv 0 1, .NEUTRAL, "Insufficient data"⟩
  else if gt histogram (fv 0 1) && le prev_histogram (fv 0 1) then
    ⟨"MACD", histogram, .STRONG_BUY, "MACD bullish crossover - Strong buy signal"⟩
  else if lt histogram (fv 0 1) && ge prev_histogram (fv 0 1) then
    ⟨"MACD", histogram, .STRONG_SELL, "MACD bearish crossover - Strong sell signal"⟩
  else if gt macd signal_line then
    ⟨"MACD", histogram, .BUY, "MACD above signal line - Bullish momentum"⟩
  else if lt macd signal_line then
    ⟨"MACD", histogram, .SELL, "MACD below signal line - Bearish momentum"⟩
  else ⟨"MACD", histogram, .NEUTRAL, "MACD neutral"⟩

/-- Embeds `TechnicalAnalyzer.analyze_moving_averages` (technical_indicators.py
lines 239-283). -/
def analyze_moving_averages (f : TFrame) : IndicatorResult :=
  let close := f.close (f.n - 1)
  let ema_9 := f.ema_9 (f.n - 1)
  let ema_21 := f.ema_21 (f.n - 1)
  let sma_50 := f.sma_50 (f.n - 1)
  let sma_200 := f.sma_200 (f.n - 1)
  if sma_50.isNaN then ⟨"Moving Averages", fv 0 1, .NEUTRAL, "Insufficient data"⟩
  else
    let votes : List ℤ :=
      [if gt ema_9 ema_21 then 1 else -1, if gt close sma_50 then 1 else -1] ++
        (if sma_200.isNaN = false then [if gt sma_50 sma_200 then 1 else -1] else [])
    let avg : Q := Q.qOf votes.sum (votes.length : ℤ)
    if Q.ltB (Q.qOf 1 2) avg then
      ⟨"Moving Averages", .fin avg, .BUY, "Moving averages bullish - Price above key MAs"⟩
    else if Q.ltB avg (Q.qOf (-1) 2) then
      ⟨"Moving Averages", .fin avg, .SELL, "Moving averages bearish - Price below key MAs"⟩
    else ⟨"Moving Averages", .fin avg, .NEUTRAL, "Mixed moving average signals"⟩

/-- Embeds `TechnicalAnalyzer.analyze_bollinger_bands` (technical_indicators.py
lines 285-314). -/
def analyze_bollinger_bands (f : TFrame) : IndicatorResult :=
  let close := f.close (f.n - 1)
  let bb_upper := f.bb_upper (f.n - 1)
  let bb_lower := f.bb_lower (f.n - 1)
  if bb_upper.isNaN then ⟨"Bollinger Bands", fv 0 1, .NEUTRAL, "Insufficient data"⟩
  else
    let bb_position := FVal.div (FVal.sub close bb_lower) (FVal.sub bb_upper bb_lower)
    if lt close bb_lower then
      ⟨"Bollinger Bands", bb_position, .STRONG_BUY, "Price below lower band - Potentially oversold"⟩
    else if gt close bb_upper then
      ⟨"Bollinger Bands", bb_position, .STRONG_SELL, "Price above upper band - Potentially overbought"⟩
    else if lt bb_position (fv 2 10) then
      ⟨"Bollinger Bands", bb_position, .BUY, "Price near lower band - Potential bounce"⟩
    else if gt bb_position (fv 8 10) then
      ⟨"Bollinger Bands", bb_position, .SELL, "Price near upper band - Potential resistance"⟩
    else ⟨"Bollinger Bands", bb_position, .NEUTRAL, "Price within bands - No extreme condition"⟩

/-- Embeds `TechnicalAnalyzer.analyze_stochastic` (technical_indicators.py
lines 316-340). -/
def analyze_stochastic (f : TFrame) : IndicatorResult :=
  let stoch_k := f.stoch_k (f.n - 1)
  let stoch_d := f.stoch_d (f.n - 1)
  if stoch_k.isNaN then ⟨"Stochastic", fv 0 1, .NEUTRAL, "Insufficient data"⟩
  else if lt stoch_k (fv 20 1) && lt stoch_d (fv 20 1) then
    ⟨"Stochastic", stoch_k, .STRONG_BUY, "Oversold"⟩
  else if lt stoch_k (fv 30 1) then ⟨"Stochastic", stoch_k, .BUY, "Approaching oversold"⟩
  else if gt stoch_k (fv 80 1) && gt stoch_d (fv 80 1) then
    ⟨"Stochastic", stoch_k, .STRONG_SELL, "Overbought"⟩
  else if gt stoch_k (fv 70 1) then ⟨"Stochastic", stoch_k, .SELL, "Approaching overbought"⟩
  else ⟨"Stochastic", stoch_k, .NEUTRAL, "Neutral"⟩

/-- Embeds `TechnicalAnalyzer.analyze_adx` (technical_indicators.py lines 342-364). -/
def analyze_adx (f : TFrame) : IndicatorResult :=
  let adx := f.adx (f.n - 1)
  let plus_di := f.plus_di (f.n - 1)
  let minus_di := f.minus_di (f.n - 1)
  if adx.isNaN then ⟨"ADX", fv 0 1, .NEUTRAL, "Insufficient data"⟩
  else
    let trend_strength :=
      if lt adx (fv 20 1) then "Weak" else if lt adx (fv 40 1) then "Moderate" else "Strong"
    if gt adx (fv 25 1) then
      if gt plus_di minus_di then ⟨"ADX", adx, .BUY, trend_strength ++ " uptrend"⟩
      else ⟨"ADX", adx, .SELL, trend_strength ++ " downtrend"⟩
    else ⟨"ADX", adx, .NEUTRAL, "Weak/no trend"⟩

/-- Embeds `TechnicalAnalyzer.analyze_volume` (technical_indicators.py
lines 366-397). -/
def analyze_volume (f : TFrame) : IndicatorResult :=
  let volume := f.volume (f.n - 1)
  let volume_sma := f.volume_sma (f.n - 1)
  let close := f.close (f.n - 1)
  let prev_close := if 1 < f.n then f.close (f.n - 2) else close
  if volume_sma.isNaN then ⟨"Volume", fv 0 1, .NEUTRAL, "Insufficient data"⟩
  else
    let volume_ratio := FVal.div volume volume_sma
    let price_change := FVal.sub close prev_close
    if gt volume_ratio (fv 15 10) then
      if gt price_change (fv 0 1) then
        ⟨"Volume", volume_ratio, .STRONG_BUY, "High volume with price increase"⟩
      else ⟨"Volume", volume_ratio, .STRONG_SELL, "High volume with price decrease"⟩
    else if gt volume_ratio (fv 12 10) then
      if gt price_change (fv 0 1) then
        ⟨"Volume", volume_ratio, .BUY, "Above average volume with bullish price action"⟩
      else ⟨"Volume", volume_ratio, .SELL, "Above average volume with bearish price action"⟩
    else ⟨"Volume", volume_ratio, .NEUTRAL, "Normal volume"⟩

/-- Summary of all technical analysis (`TechnicalSummary`).  The rendered
`analysis_text` is display formatting of the same data and is not
carried. -/
structure TechnicalSummary where
  symbol : String
  current_price : FVal
  indicators : List (String × IndicatorResult)
  overall_signal : Signal
  bullish_count : ℕ
  bearish_count : ℕ
  neutral_count : ℕ
deriving DecidableEq

/-- A signal counted as bullish by `get_full_analysis`
(`i.signal in [Signal.BUY, Signal.STRONG_BUY]`). -/
def isBullish (r : IndicatorResult) : Bool :=
  r.signal = Signal.BUY || r.signal = Signal.STRONG_BUY

/-- A signal counted as bearish by `get_full_analysis`
(`i.signal in [Signal.SELL, Signal.STRONG_SELL]`). -/
def isBearish (r : IndicatorResult) : Bool :=
  r.signal = Signal.SELL || r.signal = Signal.STRONG_SELL

/-- Embeds `TechnicalAnalyzer.get_full_analysis` (technical_indicators.py
lines 399-463): the seven indicator analyses in insertion order, the
bullish/bearish tallies over them, and the aggregated overall signal. -/
def get_full_analysis (f : TFrame) (symbol : String) : TechnicalSummary :=
  let current_price := f.close (f.n - 1)
  let indicators : List (String × IndicatorResult) :=
    [("rsi", analyze_rsi f), ("macd", analyze_macd f),
     ("moving_averages", analyze_moving_averages f),
     ("bollinger_bands", analyze_bollinger_bands f),
     ("stochastic", analyze_stochastic f), ("adx", analyze_adx f),
     ("volume", analyze_volume f)]
  let values := indicators.map Prod.snd
  let bullish := values.countP isBullish
  let bearish := values.countP isBearish
  let neutral := indicators.length - bullish - bearish
  let overall : Signal :=
    if 5 ≤ bullish then .STRONG_BUY
    else if 4 ≤ bullish then .BUY
    else if 5 ≤ bearish then .STRONG_SELL
    else if 4 ≤ bearish then .SELL
    else .NEUTRAL
  ⟨symbol, current_price, indicators, overall, bullish, bearish, neutral⟩

end TA

/-!
Mutation model.  Both components assign columns in place on a pandas
DataFrame, and the frame-effect contract is that they first take a copy
(`df.copy()`) so the caller's object is never written.  To make that
statable, a tiny explicit heap holds the DataFrame objects: a reference is
an index, `.copy()` allocates a fresh cell, and the in-place column
assignments write to the constructor's own cell.
-/

/-- A heap cell: a raw OHLCV DataFrame, or one enriched by either
component's column assignments. -/
inductive PyObj where
  | rawDF : List Bar → PyObj
  | kimiDF : Kimi.KimiFrame → PyObj
  | taDF : TA.TFrame → PyObj

/-- The object heap. -/
abbrev Heap := List PyObj

/-- Read the bars of the raw DataFrame stored at `r`. -/
def readBars (h : Heap) (r : ℕ) : List Bar :=
  match h.getD r (.rawDF []) with
  | .rawDF b => b
  | _ => []

/-- Embeds `KimiScanner.calculate_indicators` at the heap level
(kimi_scanner.py line 47: `df = df.copy()`, then column assignments):
allocate a fresh cell for the copy, write all derived columns into that
cell, return the heap and the reference of the returned frame. -/
def calculate_indicators_heap (h : Heap) (r : ℕ) : Heap × ℕ :=
  let df := readBars h r
  let h1 := h ++ [PyObj.rawDF df]
  let r1 := h.length
  let h2 := h1.set r1 (PyObj.kimiDF (Kimi.calculate_indicators df))
  (h2, r1)

/-- Embeds `TechnicalAnalyzer.__init__` at the heap level
(technical_indicators.py line 62: `self.df = df.copy()`, then
`_ensure_columns`/`_calculate_indicators` assign columns on `self.df`):
allocate the copy, write the computed columns into it, return the heap
and the reference held by the constructed analyzer. -/
def mkAnalyzer_heap (h : Heap) (r : ℕ) : Heap × ℕ :=
  let df := readBars h r
  let h1 := h ++ [PyObj.rawDF df]
  let r1 := h.length
  let h2 := h1.set r1 (PyObj.taDF (TA.technicalFrame df))
  (h2, r1)

/-- Read the analyzer frame stored at `r`. -/
def readTA (h : Heap) (r : ℕ) : TA.TFrame :=
  match h.getD r (.rawDF []) with
  | .taDF f => f
  | _ => TA.technicalFrame []

/-- Models `analyze_rsi` at the heap level: a pure read of the analyzer's own
frame — the heap is returned unchanged. -/
def analyze_rsi_heap (h : Heap) (r : ℕ) : Heap × TA.IndicatorResult :=
  (h, TA.analyze_rsi (readTA h r))

/-- Models `get_full_analysis` at the heap level: a pure read of the analyzer's
own frame — the heap is returned unchanged. -/
def get_full_analysis_heap (h : Heap) (r : ℕ) (symbol : String) :
    Heap × TA.TechnicalSummary :=
  (h, TA.get_full_analysis (readTA h r) symbol)

/-- Signals delivered by a successful per-symbol evaluation (empty on an
exception). -/
def okSigs (evalSym : String → Except String (List Kimi.StrategySignal))
    (s : String) : List Kimi.StrategySignal :=
  match evalSym s with
  | .ok l => l
  | .error _ => []

/-- Whether the per-symbol evaluation succeeded. -/
def okB (evalSym : String → Except String (List Kimi.StrategySignal))
    (s : String) : Bool :=
  match evalSym s with
  | .ok _ => true
  | .error _ => false

/-!
Concrete inputs used by the counterexamples and the witnesses below.
-/

/-- A flat bar: open = high = low = close = 100, volume = 1,000,000. -/
def flatBar : Bar := ⟨Q.qOf 100 1, Q.qOf 100 1, Q.qOf 100 1, Q.qOf 100 1, 1000000⟩

/-- A flat series of 300 identical bars (spec Scenario A). -/
def flat300 : List Bar := List.replicate 300 flatBar

/-- A bar whose four prices all equal `c` (volume 1000). -/
def priceBar (c : Q) : Bar := ⟨c, c, c, c, 1000⟩

/-- A short varying series (16 bars, each with all four prices equal, so
the bar invariant holds trivially) on which RSI and the Stochastic are
defined at the last index. -/
def varied16 : List Bar :=
  [priceBar (Q.qOf 100 1), priceBar (Q.qOf 102 1), priceBar (Q.qOf 101 1),
   priceBar (Q.qOf 104 1), priceBar (Q.qOf 103 1), priceBar (Q.qOf 106 1),
   priceBar (Q.qOf 105 1), priceBar (Q.qOf 108 1), priceBar (Q.qOf 107 1),
   priceBar (Q.qOf 110 1), priceBar (Q.qOf 109 1), priceBar (Q.qOf 112 1),
   priceBar (Q.qOf 111 1), priceBar (Q.qOf 114 1), priceBar (Q.qOf 113 1),
   priceBar (Q.qOf 116 1)]

/-- An empty DataFrame that has all five required columns. -/
def emptyAllCols : TA.RawFrame := ⟨[], true, true, true, true, true⟩

/-- A strategy signal literal used in the scan-ordering scenarios. -/
def mkSig (sym conf : String) : Kimi.StrategySignal :=
  { symbol := sym, strategy := "stage2_breakout", signal := "BUY",
    entry := fv 100 1, stop := fv 95 1, target := fv 140 1, confidence := conf }

/-- Scenario evaluator with the symbols literally named X and Y: X
triggers a HIGH and a MEDIUM signal, Y triggers one HIGH signal. -/
def evalXY : String → Except String (List Kimi.StrategySignal) := fun s =>
  if s = "X" then .ok [mkSig "X" "HIGH", mkSig "X" "MEDIUM"]
  else if s = "Y" then .ok [mkSig "Y" "HIGH"]
  else .ok []

/-- Scenario evaluator where the one-signal symbol (`"ABE"`, playing Y)
alphabetically precedes the two-signal symbol (`"XEN"`, playing X). -/
def evalYfirst : String → Except String (List Kimi.StrategySignal) := fun s =>
  if s = "XEN" then .ok [mkSig "XEN" "HIGH", mkSig "XEN" "MEDIUM"]
  else if s = "ABE" then .ok [mkSig "ABE" "HIGH"]
  else .ok []

/-- Evaluator for the exception-isolation witness: the symbol `"BAD"`
raises, every other symbol scans cleanly with no signals. -/
def evalBad : String → Except String (List Kimi.StrategySignal) := fun s =>
  if s = "BAD" then .error "boom" else .ok []

/-- A one-cell heap holding one raw DataFrame. -/
def heap1 : Heap := [PyObj.rawDF [flatBar]]

/-- A frame whose last row has close 10, SMA30w 12, SMA40w 9 (and 0 in
every other column), used to exercise the stage classifier. -/
def stageFrame : Kimi.KimiFrame :=
  { n := 1, close := fun _ => fv 10 1, high := fun _ => fv 10 1,
    low := fun _ => fv 10 1, volume := fun _ => fv 10 1,
    SMA_50 := fun _ => fv 0 1, SMA_150 := fun _ => fv 0 1,
    SMA_200 := fun _ => fv 0 1, SMA_10w := fun _ => fv 0 1,
    SMA_30w := fun _ => fv 12 1, SMA_40w := fun _ => fv 9 1,
    RSI := fun _ => fv 0 1, Vol_SMA_20 := fun _ => fv 0 1,
    Vol_Ratio := fun _ => fv 0 1, Vol_SMA_50 := fun _ => fv 0 1,
    ADX := fun _ => fv 0 1, Returns_3m := fun _ => fv 0 1,
    Returns_6m := fun _ => fv 0 1, High52w := fun _ => fv 0 1,
    Low52w := fun _ => fv 0 1, Pct52w := fun _ => fv 0 1 }

namespace Q

theorem den_cast_pos (a : Q) : (0 : ℚ) < (a.den : ℚ) := by
  exact_mod_cast a.dpos

theorem den_cast_ne (a : Q) : (a.den : ℚ) ≠ 0 := ne_of_gt a.den_cast_pos

theorem toRat_add (a b : Q) : (a.add b).toRat = a.toRat + b.toRat := by
  unfold add toRat
  rw [div_add_div _ _ a.den_cast_ne b.den_cast_ne]
  push_cast
  ring_nf

theorem toRat_neg (a : Q) : a.neg.toRat = -a.toRat := by
  unfold neg toRat
  push_cast
  ring

theorem toRat_sub (a b : Q) : (a.sub b).toRat = a.toRat - b.toRat := by
  unfold sub
  rw [toRat_add, toRat_neg, sub_eq_add_neg]

theorem toRat_mul (a b : Q) : (a.mul b).toRat = a.toRat * b.toRat := by
  unfold mul toRat
  push_cast
  rw [div_mul_div_comm]

theorem toRat_div (a b : Q) (hb : b.num ≠ 0) : (a.div b).toRat = a.toRat / b.toRat := by
  have hbq : ((b.num : ℚ)) ≠ 0 := Int.cast_ne_zero.mpr hb
  have had : ((a.den : ℚ)) ≠ 0 := a.den_cast_ne
  have hbd : ((b.den : ℚ)) ≠ 0 := b.den_cast_ne
  unfold div toRat
  rcases lt_trichotomy b.num 0 with h | h | h
  · rw [dif_neg (by omega), dif_pos h]
    push_cast
    field_simp
  · exact absurd h hb
  · rw [dif_pos h]
    push_cast
    field_simp

theorem toRat_qabs (a : Q) : a.qabs.toRat = |a.toRat| := by
  unfold qabs toRat
  rw [abs_div, abs_of_pos a.den_cast_pos]
  push_cast
  rfl

theorem ltB_iff (a b : Q) : a.ltB b = true ↔ a.toRat < b.toRat := by
  unfold ltB toRat
  rw [decide_eq_true_iff, div_lt_div_iff₀ a.den_cast_pos b.den_cast_pos]
  exact_mod_cast Iff.rfl

theorem leB_iff (a b : Q) : a.leB b = true ↔ a.toRat ≤ b.toRat := by
  unfold leB toRat
  rw [decide_eq_true_iff, div_le_div_iff₀ a.den_cast_pos b.den_cast_pos]
  exact_mod_cast Iff.rfl

theorem isZero_iff (a : Q) : a.isZero = true ↔ a.toRat = 0 := by
  unfold isZero toRat
  rw [div_eq_zero_iff]
  simp [a.den_cast_ne, beq_iff_eq, Int.cast_eq_zero]

theorem toRat_qOf (n d : ℤ) (h : 0 < d) : (qOf n d).toRat = (n : ℚ) / (d : ℚ) := by
  unfold qOf toRat
  rw [dif_pos h]


end Q

namespace Q

theorem toRat_pos_iff (a : Q) : 0 < a.toRat ↔ 0 < a.num := by
  unfold toRat
  rw [div_pos_iff]
  constructor
  · rintro (⟨h, _⟩ | ⟨_, hd⟩)
    · exact_mod_cast h
    · exact absurd hd (not_lt.mpr a.den_cast_pos.le)
  · intro h
    exact Or.inl ⟨by exact_mod_cast h, a.den_cast_pos⟩

theorem toRat_nonneg_iff (a : Q) : 0 ≤ a.toRat ↔ 0 ≤ a.num := by
  unfold toRat
  rw [div_nonneg_iff]
  constructor
  · rintro (⟨h, _⟩ | ⟨_, hd⟩)
    · exact_mod_cast h
    · have := a.den_cast_pos
      have hz : ((a.den : ℚ)) = 0 := le_antisymm hd this.le
      exact absurd hz a.den_cast_ne
  · intro h
    exact Or.inl ⟨by exact_mod_cast h, a.den_cast_pos.le⟩

theorem toRat_eq_zero_iff (a : Q) : a.toRat = 0 ↔ a.num = 0 := by
  unfold toRat
  rw [div_eq_zero_iff]
  simp [a.den_cast_ne, Int.cast_eq_zero]

theorem num_ne_zero_of_toRat_pos {a : Q} (h : 0 < a.toRat) : a.num ≠ 0 := by
  intro h0
  rw [← toRat_eq_zero_iff] at h0
  exact absurd h0 (ne_of_gt h)

end Q

namespace FVal

@[simp] theorem nan_add (b : FVal) : add nan b = nan := by cases b <;> rfl

@[simp] theorem add_nan (a : FVal) : add a nan = nan := by cases a <;> rfl

@[simp] theorem nan_mul (b : FVal) : mul nan b = nan := by cases b <;> rfl

@[simp] theorem mul_nan (a : FVal) : mul a nan = nan := by cases a <;> rfl

@[simp] theorem nan_div (b : FVal) : div nan b = nan := by cases b <;> rfl

@[simp] theorem div_nan (a : FVal) : div a nan = nan := by cases a <;> rfl

@[simp] theorem neg_nan : neg nan = nan := rfl

@[simp] theorem nan_sub (b : FVal) : sub nan b = nan := by cases b <;> rfl

@[simp] theorem sub_nan (a : FVal) : sub a nan = nan := by cases a <;> rfl

@[simp] theorem fabs_nan : fabs nan = nan := rfl

@[simp] theorem isNaN_nan : isNaN nan = true := rfl

@[simp] theorem isNaN_fin (q : Q) : isNaN (fin q) = false := rfl

theorem add_fin (a b : Q) : add (fin a) (fin b) = fin (a.add b) := rfl

theorem sub_fin (a b : Q) : sub (fin a) (fin b) = fin (a.sub b) := rfl

theorem mul_fin (a b : Q) : mul (fin a) (fin b) = fin (a.mul b) := rfl

theorem div_fin (a b : Q) (hb : b.num ≠ 0) : div (fin a) (fin b) = fin (a.div b) := by
  unfold div
  simp [hb]

theorem gt_fin_iff (a b : Q) : gt (fin a) (fin b) = true ↔ b.toRat < a.toRat := by
  show b.ltB a = true ↔ _
  exact Q.ltB_iff b a

theorem lt_fin_iff (a b : Q) : lt (fin a) (fin b) = true ↔ a.toRat < b.toRat := by
  show a.ltB b = true ↔ _
  exact Q.ltB_iff a b

/-- Sum of a list of finite nonnegative values is finite and nonnegative. -/
theorem sumF_nonneg (l : List FVal)
    (h : ∀ v ∈ l, ∃ q : Q, v = fin q ∧ 0 ≤ q.toRat) :
    ∃ s : Q, sumF l = fin s ∧ 0 ≤ s.toRat := by
  induction l with
  | nil =>
      refine ⟨Q.qOf 0 1, rfl, ?_⟩
      rw [Q.toRat_qOf 0 1 one_pos]
      norm_num
  | cons v vs ih =>
      obtain ⟨q, hq, hq0⟩ := h v (List.mem_cons_self ..)
      obtain ⟨s, hs, hs0⟩ := ih (fun w hw => h w (List.mem_cons_of_mem _ hw))
      refine ⟨q.add s, ?_, ?_⟩
      · show add v (sumF vs) = _
        rw [hq, hs, add_fin]
      · rw [Q.toRat_add]
        linarith

/-- Sum of a nonempty list of finite positive values is finite and
positive. -/
theorem sumF_pos (l : List FVal) (hne : l ≠ [])
    (h : ∀ v ∈ l, ∃ q : Q, v = fin q ∧ 0 < q.toRat) :
    ∃ s : Q, sumF l = fin s ∧ 0 < s.toRat := by
  induction l with
  | nil => exact absurd rfl hne
  | cons v vs ih =>
      obtain ⟨q, hq, hq0⟩ := h v (List.mem_cons_self ..)
      rcases List.eq_nil_or_concat' vs with hvs | _
      · subst hvs
        refine ⟨q.add (Q.qOf 0 1), ?_, ?_⟩
        · show add v (sumF []) = _
          rw [hq]; rfl
        · rw [Q.toRat_add, Q.toRat_qOf 0 1 one_pos]
          norm_num
          exact hq0
      · have hvs : vs ≠ [] := by
          rename_i hcon
          obtain ⟨l2, a2, rfl⟩ := hcon
          simp
        obtain ⟨s, hs, hs0⟩ := ih hvs (fun w hw => h w (List.mem_cons_of_mem _ hw))
        refine ⟨q.add s, ?_, ?_⟩
        · show add v (sumF vs) = _
          rw [hq, hs, add_fin]
        · rw [Q.toRat_add]
          linarith

/-- Sum of finite values each within `[lo, hi]` is finite, within
`[length * lo, length * hi]`. -/
theorem sumF_bounds (l : List FVal) (lo hi : ℚ)
    (h : ∀ v ∈ l, ∃ q : Q, v = fin q ∧ lo ≤ q.toRat ∧ q.toRat ≤ hi) :
    ∃ s : Q, sumF l = fin s ∧
      (l.length : ℚ) * lo ≤ s.toRat ∧ s.toRat ≤ (l.length : ℚ) * hi := by
  induction l with
  | nil =>
      refine ⟨Q.qOf 0 1, rfl, ?_⟩
      rw [Q.toRat_qOf 0 1 one_pos]
      norm_num
  | cons v vs ih =>
      obtain ⟨q, hq, hq1, hq2⟩ := h v (List.mem_cons_self ..)
      obtain ⟨s, hs, hs1, hs2⟩ := ih (fun w hw => h w (List.mem_cons_of_mem _ hw))
      refine ⟨q.add s, ?_, ?_, ?_⟩
      · show add v (sumF vs) = _
        rw [hq, hs, add_fin]
      · rw [Q.toRat_add]
        simp only [List.length_cons]
        push_cast
        nlinarith [hs1, hq1]
      · rw [Q.toRat_add]
        simp only [List.length_cons]
        push_cast
        nlinarith [hs2, hq2]

end FVal

namespace PandasOps

theorem rollingMean_nan_of_short (w : ℕ) (x : Col) (i : ℕ) (h : i + 1 < w) :
    rollingMean w x i = .nan := by
  simp [rollingMean, h]

theorem window_length (w : ℕ) (x : Col) (i : ℕ) : (window w x i).length = w := by
  simp [window]

theorem mem_window (w : ℕ) (x : Col) (i : ℕ) (v : FVal) :
    v ∈ window w x i ↔ ∃ k, k < w ∧ x (i + 1 - w + k) = v := by
  simp [window, List.mem_map, List.mem_range]

/-- A window of finite entries has no NaN. -/
theorem window_no_nan (w : ℕ) (x : Col) (i : ℕ)
    (h : ∀ v ∈ window w x i, ∃ q : Q, v = .fin q) :
    (window w x i).any FVal.isNaN = false := by
  rw [List.any_eq_false]
  intro v hv
  obtain ⟨q, rfl⟩ := h v hv
  simp

/-- A complete rolling mean over positive finite entries is a positive
finite value. -/
theorem rollingMean_pos (w : ℕ) (x : Col) (i : ℕ) (hw : 0 < w) (hiw : w ≤ i + 1)
    (hx : ∀ j ≤ i, ∃ q : Q, x j = .fin q ∧ 0 < q.toRat) :
    ∃ m : Q, rollingMean w x i = .fin m ∧ 0 < m.toRat := by
  have hwin : ∀ v ∈ window w x i, ∃ q : Q, v = .fin q ∧ 0 < q.toRat := by
    intro v hv
    rw [mem_window] at hv
    obtain ⟨k, hk, hxv⟩ := hv
    obtain ⟨q, hq, hq0⟩ := hx (i + 1 - w + k) (by omega)
    exact ⟨q, by rw [← hxv, hq], hq0⟩
  have hnonan := window_no_nan w x i (fun v hv => (hwin v hv).imp (fun q h => h.1))
  have hne : window w x i ≠ [] := by
    intro h0
    have := window_length w x i
    rw [h0] at this
    simp at this
    omega
  obtain ⟨s, hs, hs0⟩ := FVal.sumF_pos _ hne hwin
  have hnum : (Q.qOf (w : ℤ) 1).num ≠ 0 := by
    unfold Q.qOf
    rw [dif_pos one_pos]
    simpa using by omega
  refine ⟨s.div (Q.qOf (w : ℤ) 1), ?_, ?_⟩
  · rw [rollingMean, if_neg (by omega), if_neg (by rw [hnonan]; simp), hs]
    exact FVal.div_fin _ _ hnum
  · rw [Q.toRat_div _ _ hnum, Q.toRat_qOf _ _ one_pos]
    have hwq : (0 : ℚ) < (w : ℚ) / 1 := by
      simp
      exact_mod_cast hw
    positivity

/-- A rolling mean over entries that are within `[lo, hi]` wherever they
are not NaN is either NaN or a finite value within `[lo, hi]`. -/
theorem rollingMean_bounds (w : ℕ) (x : Col) (i : ℕ) (hw : 0 < w) (lo hi : ℚ)
    (hx : ∀ j, x j ≠ .nan → ∃ q : Q, x j = .fin q ∧ lo ≤ q.toRat ∧ q.toRat ≤ hi) :
    rollingMean w x i = .nan ∨
      ∃ m : Q, rollingMean w x i = .fin m ∧ lo ≤ m.toRat ∧ m.toRat ≤ hi := by
  by_cases hshort : i + 1 < w
  · exact Or.inl (rollingMean_nan_of_short w x i hshort)
  by_cases hnan : (window w x i).any FVal.isNaN = true
  · exact Or.inl (by simp [rollingMean, hshort, hnan])
  have hnan' : (window w x i).any FVal.isNaN = false := by
    revert hnan
    cases (window w x i).any FVal.isNaN <;> simp
  have hwin : ∀ v ∈ window w x i, ∃ q : Q, v = .fin q ∧ lo ≤ q.toRat ∧ q.toRat ≤ hi := by
    intro v hv
    have hvnan : v.isNaN = false := by
      rw [List.any_eq_false] at hnan'
      simpa using hnan' v hv
    rw [mem_window] at hv
    obtain ⟨k, hk, hxv⟩ := hv
    have : x (i + 1 - w + k) ≠ .nan := by
      rw [hxv]
      intro h0
      rw [h0] at hvnan
      simp at hvnan
    obtain ⟨q, hq, hq1, hq2⟩ := hx _ this
    exact ⟨q, by rw [← hxv, hq], hq1, hq2⟩
  obtain ⟨s, hs, hs1, hs2⟩ := FVal.sumF_bounds _ lo hi hwin
  rw [window_length] at hs1 hs2
  have hnum : (Q.qOf (w : ℤ) 1).num ≠ 0 := by
    unfold Q.qOf
    rw [dif_pos one_pos]
    simpa using by omega
  refine Or.inr ⟨s.div (Q.qOf (w : ℤ) 1), ?_, ?_, ?_⟩
  · rw [rollingMean, if_neg hshort, if_neg (by rw [hnan']; simp), hs]
    exact FVal.div_fin _ _ hnum
  · rw [Q.toRat_div _ _ hnum, Q.toRat_qOf _ _ one_pos]
    have hwq : (0 : ℚ) < (w : ℚ) := by exact_mod_cast hw
    push_cast
    rw [div_one, le_div_iff₀ hwq]
    linarith [hs1]
  · rw [Q.toRat_div _ _ hnum, Q.toRat_qOf _ _ one_pos]
    have hwq : (0 : ℚ) < (w : ℚ) := by exact_mod_cast hw
    push_cast
    rw [div_one, div_le_iff₀ hwq]
    linarith [hs2]

/-- A rolling mean over entries that are finite and nonnegative wherever
they are not NaN is either NaN or finite nonnegative. -/
theorem rollingMean_nonneg (w : ℕ) (x : Col) (i : ℕ) (hw : 0 < w)
    (hx : ∀ j, ∃ q : Q, x j = .fin q ∧ 0 ≤ q.toRat) :
    rollingMean w x i = .nan ∨
      ∃ m : Q, rollingMean w x i = .fin m ∧ 0 ≤ m.toRat := by
  by_cases hshort : i + 1 < w
  · exact Or.inl (rollingMean_nan_of_short w x i hshort)
  have hwin : ∀ v ∈ window w x i, ∃ q : Q, v = .fin q ∧ 0 ≤ q.toRat := by
    intro v hv
    rw [mem_window] at hv
    obtain ⟨k, hk, hxv⟩ := hv
    obtain ⟨q, hq, hq0⟩ := hx (i + 1 - w + k)
    exact ⟨q, by rw [← hxv, hq], hq0⟩
  have hnonan := window_no_nan w x i (fun v hv => (hwin v hv).imp (fun q h => h.1))
  obtain ⟨s, hs, hs0⟩ := FVal.sumF_nonneg _ hwin
  have hnum : (Q.qOf (w : ℤ) 1).num ≠ 0 := by
    unfold Q.qOf
    rw [dif_pos one_pos]
    simpa using by omega
  refine Or.inr ⟨s.div (Q.qOf (w : ℤ) 1), ?_, ?_⟩
  · rw [rollingMean, if_neg hshort, if_neg (by rw [hnonan]; simp), hs]
    exact FVal.div_fin _ _ hnum
  · rw [Q.toRat_div _ _ hnum, Q.toRat_qOf _ _ one_pos]
    have hwq : (0 : ℚ) < (w : ℚ) := by exact_mod_cast hw
    positivity

end PandasOps

namespace FVal

/-- Folding `maxF` over a nonempty list of finite values yields a finite
value that bounds every entry from above. -/
theorem foldr_maxF (l : List FVal) (hne : l ≠ [])
    (h : ∀ v ∈ l, ∃ q : Q, v = fin q) :
    ∃ m : Q, l.foldr maxF ninf = fin m ∧
      ∀ q : Q, fin q ∈ l → q.toRat ≤ m.toRat := by
  induction l with
  | nil => exact absurd rfl hne
  | cons v vs ih =>
      obtain ⟨q, rfl⟩ := h v (List.mem_cons_self ..)
      rcases List.eq_nil_or_concat' vs with rfl | hcon
      · refine ⟨q, ?_, ?_⟩
        · show maxF (fin q) ninf = fin q
          rfl
        · intro p hp
          rcases List.mem_singleton.mp hp with h1
          rw [show p = q by injection h1]
      · have hvs : vs ≠ [] := by
          obtain ⟨l2, a2, rfl⟩ := hcon
          simp
        obtain ⟨m, hm, hmax⟩ := ih hvs (fun w hw => h w (List.mem_cons_of_mem _ hw))
        show ∃ m', maxF (fin q) (vs.foldr maxF ninf) = fin m' ∧ _
        rw [hm]
        unfold maxF
        by_cases hlt : lt (fin q) (fin m) = true
        · rw [if_pos hlt]
          refine ⟨m, rfl, ?_⟩
          intro p hp
          rcases List.mem_cons.mp hp with h1 | h1
          · have : p = q := by injection h1
            subst this
            rw [lt_fin_iff] at hlt
            exact hlt.le
          · exact hmax p h1
        · rw [if_neg hlt]
          refine ⟨q, rfl, ?_⟩
          intro p hp
          have hqm : m.toRat ≤ q.toRat := by
            rw [lt_fin_iff] at hlt
            exact not_lt.mp hlt
          rcases List.mem_cons.mp hp with h1 | h1
          · rw [show p = q by injection h1]
          · exact le_trans (hmax p h1) hqm

/-- Folding `minF` over a nonempty list of finite values yields a finite
value that bounds every entry from below. -/
theorem foldr_minF (l : List FVal) (hne : l ≠ [])
    (h : ∀ v ∈ l, ∃ q : Q, v = fin q) :
    ∃ m : Q, l.foldr minF pinf = fin m ∧
      ∀ q : Q, fin q ∈ l → m.toRat ≤ q.toRat := by
  induction l with
  | nil => exact absurd rfl hne
  | cons v vs ih =>
      obtain ⟨q, rfl⟩ := h v (List.mem_cons_self ..)
      rcases List.eq_nil_or_concat' vs with rfl | hcon
      · refine ⟨q, ?_, ?_⟩
        · show minF (fin q) pinf = fin q
          rfl
        · intro p hp
          rcases List.mem_singleton.mp hp with h1
          rw [show p = q by injection h1]
      · have hvs : vs ≠ [] := by
          obtain ⟨l2, a2, rfl⟩ := hcon
          simp
        obtain ⟨m, hm, hmin⟩ := ih hvs (fun w hw => h w (List.mem_cons_of_mem _ hw))
        show ∃ m', minF (fin q) (vs.foldr minF pinf) = fin m' ∧ _
        rw [hm]
        unfold minF
        by_cases hlt : lt (fin m) (fin q) = true
        · rw [if_pos hlt]
          refine ⟨m, rfl, ?_⟩
          intro p hp
          rcases List.mem_cons.mp hp with h1 | h1
          · have : p = q := by injection h1
            subst this
            rw [lt_fin_iff] at hlt
            exact hlt.le
          · exact hmin p h1
        · rw [if_neg hlt]
          refine ⟨q, rfl, ?_⟩
          intro p hp
          have hqm : q.toRat ≤ m.toRat := by
            rw [lt_fin_iff] at hlt
            exact not_lt.mp hlt
          rcases List.mem_cons.mp hp with h1 | h1
          · rw [show p = q by injection h1]
          · exact le_trans hqm (hmin p h1)

end FVal

/-- Two pointwise-disjoint boolean predicates count at most the length. -/
theorem countP_disjoint_le {α : Type} (p q : α → Bool)
    (h : ∀ x, p x = true → q x = false) (l : List α) :
    l.countP p + l.countP q ≤ l.length := by
  induction l with
  | nil => simp
  | cons v vs ih =>
      rw [List.countP_cons, List.countP_cons, List.length_cons]
      by_cases hp : p v = true
      · have hq := h v hp
        simp [hp, hq]
        omega
      · have hp' : p v = false := by
          revert hp
          cases p v <;> simp
        simp [hp']
        cases q v <;> simp <;> omega

namespace Kimi

theorem mem_insSorted {α : Type} (le : α → α → Bool) (x z : α) (l : List α) :
    z ∈ insSorted le x l ↔ z = x ∨ z ∈ l := by
  induction l with
  | nil => simp [insSorted]
  | cons y ys ih =>
      unfold insSorted
      by_cases hle : le y x = true
      · rw [if_pos hle, List.mem_cons, ih, List.mem_cons]
        tauto
      · rw [if_neg hle, List.mem_cons, List.mem_cons]

theorem pairwise_insSorted {α : Type} (le : α → α → Bool)
    (htot : ∀ a b, (le a b || le b a) = true)
    (htrans : ∀ a b c, le a b = true → le b c = true → le a c = true)
    (x : α) (l : List α) (hl : l.Pairwise (fun a b => le a b = true)) :
    (insSorted le x l).Pairwise (fun a b => le a b = true) := by
  induction l with
  | nil => simp [insSorted]
  | cons y ys ih =>
      rw [List.pairwise_cons] at hl
      obtain ⟨hy, hys⟩ := hl
      unfold insSorted
      by_cases hle : le y x = true
      · rw [if_pos hle]
        rw [List.pairwise_cons]
        constructor
        · intro z hz
          rcases (mem_insSorted le x z ys).mp hz with rfl | hz'
          · exact hle
          · exact hy z hz'
        · exact ih hys
      · rw [if_neg hle]
        have hxy : le x y = true := by
          have := htot y x
          rw [Bool.or_eq_true] at this
          tauto
        rw [List.pairwise_cons]
        constructor
        · intro z hz
          rcases List.mem_cons.mp hz with rfl | hz'
          · exact hxy
          · exact htrans x y z hxy (hy z hz')
        · rw [List.pairwise_cons]
          exact ⟨hy, hys⟩

theorem pairwise_stableSort {α : Type} (le : α → α → Bool)
    (htot : ∀ a b, (le a b || le b a) = true)
    (htrans : ∀ a b c, le a b = true → le b c = true → le a c = true)
    (l : List α) :
    (stableSort le l).Pairwise (fun a b => le a b = true) := by
  suffices h : ∀ acc : List α, acc.Pairwise (fun a b => le a b = true) →
      (l.foldl (fun acc x => insSorted le x acc) acc).Pairwise
        (fun a b => le a b = true) by
    exact h [] (by simp)
  induction l with
  | nil => intro acc hacc; simpa using hacc
  | cons v vs ih =>
      intro acc hacc
      exact ih _ (pairwise_insSorted le htot htrans v acc hacc)

theorem lexLE_total (u v : List Char) : (lexLE u v || lexLE v u) = true := by
  induction u generalizing v with
  | nil => cases v <;> simp [lexLE]
  | cons a as ih =>
      cases v with
      | nil => simp [lexLE]
      | cons b bs =>
          unfold lexLE
          rcases lt_trichotomy a b with h | h | h
          · simp [h, not_lt.mpr h.le, ne_of_gt h]
          · subst h
            simp only [lt_irrefl, if_false]
            exact ih bs
          · simp [h, not_lt.mpr h.le, ne_of_gt h]

theorem lexLE_trans (u v w : List Char) (h1 : lexLE u v = true) (h2 : lexLE v w = true) :
    lexLE u w = true := by
  induction u generalizing v w with
  | nil => simp [lexLE]
  | cons a as ih =>
      cases v with
      | nil => simp [lexLE] at h1
      | cons b bs =>
          cases w with
          | nil => simp [lexLE] at h2
          | cons c cs =>
              unfold lexLE at h1 h2 ⊢
              by_cases hab : a < b
              · by_cases hbc : b < c
                · simp [lt_trans hab hbc]
                · by_cases hcb : c < b
                  · rw [if_neg hbc, if_pos hcb] at h2
                    exact absurd h2 (by simp)
                  · have hbceq : b = c := le_antisymm (not_lt.mp hcb) (not_lt.mp hbc)
                    subst hbceq
                    simp [hab]
              · by_cases hba : b < a
                · rw [if_neg hab, if_pos hba] at h1
                  exact absurd h1 (by simp)
                · have habeq : a = b := le_antisymm (not_lt.mp hba) (not_lt.mp hab)
                  subst habeq
                  rw [if_neg (lt_irrefl a), if_neg (lt_irrefl a)] at h1
                  by_cases hac : a < c
                  · simp [hac]
                  · by_cases hca : c < a
                    · rw [if_neg hac, if_pos hca] at h2
                      exact absurd h2 (by simp)
                    · have haceq : a = c := le_antisymm (not_lt.mp hca) (not_lt.mp hac)
                      subst haceq
                      rw [if_neg (lt_irrefl a), if_neg (lt_irrefl a)] at h2
                      rw [if_neg (lt_irrefl a), if_neg (lt_irrefl a)]
                      exact ih bs cs h1 h2

theorem sigLE_total (a b : StrategySignal) : (sigLE a b || sigLE b a) = true := by
  unfold sigLE symLE
  rcases lt_trichotomy (confidence_order a.confidence) (confidence_order b.confidence)
    with h | h | h
  · simp [h]
  · have := lexLE_total a.symbol.data b.symbol.data
    rw [Bool.or_eq_true] at this
    rcases this with h1 | h1 <;> simp [h, h1]
  · simp [h]

theorem sigLE_trans (a b c : StrategySignal) (h1 : sigLE a b = true)
    (h2 : sigLE b c = true) : sigLE a c = true := by
  unfold sigLE symLE at h1 h2 ⊢
  rw [Bool.or_eq_true] at h1 h2 ⊢
  rcases h1 with h1 | h1 <;> rcases h2 with h2 | h2
  · rw [decide_eq_true_iff] at h1 h2
    exact Or.inl (by rw [decide_eq_true_iff]; omega)
  · rw [Bool.and_eq_true, decide_eq_true_iff] at h2
    rw [decide_eq_true_iff] at h1
    exact Or.inl (by rw [decide_eq_true_iff]; omega)
  · rw [Bool.and_eq_true, decide_eq_true_iff] at h1
    rw [decide_eq_true_iff] at h2
    exact Or.inl (by rw [decide_eq_true_iff]; omega)
  · rw [Bool.and_eq_true, decide_eq_true_iff] at h1 h2
    refine Or.inr ?_
    rw [Bool.and_eq_true, decide_eq_true_iff]
    exact ⟨h1.1.trans h2.1, lexLE_trans _ _ _ h1.2 h2.2⟩

end Kimi

/-- Claim C3: for every (nonempty) input series, `get_full_analysis`
tallies exactly the 7 indicator results (RSI, MACD, moving averages,
Bollinger, Stochastic, ADX, Volume), counting signals in
{BUY, STRONG_BUY} as bullish and {SELL, STRONG_SELL} as bearish, and sets
the overall signal to STRONG_BUY if bullish ≥ 5, else BUY if bullish ≥ 4,
else STRONG_SELL if bearish ≥ 5, else SELL if bearish ≥ 4, else NEUTRAL;
consequently bullish + bearish + neutral = 7 in every returned
`TechnicalSummary`. -/
theorem full_analysis_tally (s : List Bar) (symbol : String) (hs : 1 ≤ s.length) :
    let f := TA.technicalFrame s
    let ts := TA.get_full_analysis f symbol
    ts.indicators = [("rsi", TA.analyze_rsi f), ("macd", TA.analyze_macd f),
      ("moving_averages", TA.analyze_moving_averages f),
      ("bollinger_bands", TA.analyze_bollinger_bands f),
      ("stochastic", TA.analyze_stochastic f), ("adx", TA.analyze_adx f),
      ("volume", TA.analyze_volume f)] ∧
    ts.bullish_count = (ts.indicators.map Prod.snd).countP TA.isBullish ∧
    ts.bearish_count = (ts.indicators.map Prod.snd).countP TA.isBearish ∧
    ts.overall_signal = (if 5 ≤ ts.bullish_count then TA.Signal.STRONG_BUY
      else if 4 ≤ ts.bullish_count then TA.Signal.BUY
      else if 5 ≤ ts.bearish_count then TA.Signal.STRONG_SELL
      else if 4 ≤ ts.bearish_count then TA.Signal.SELL else TA.Signal.NEUTRAL) ∧
    ts.bullish_count + ts.bearish_count + ts.neutral_count = 7 := by
  intro f ts
  refine ⟨rfl, rfl, rfl, rfl, ?_⟩
  have hdisj : ∀ r : TA.IndicatorResult,
      TA.isBullish r = true → TA.isBearish r = false := by
    intro r h
    cases hr : r.signal <;> simp [TA.isBullish, TA.isBearish, hr] at h ⊢
  have hle := countP_disjoint_le TA.isBullish TA.isBearish hdisj
    (ts.indicators.map Prod.snd)
  have h7 : (ts.indicators.map Prod.snd).length = 7 := rfl
  rw [h7] at hle
  have hb : ts.bullish_count = (ts.indicators.map Prod.snd).countP TA.isBullish := rfl
  have hr : ts.bearish_count = (ts.indicators.map Prod.snd).countP TA.isBearish := rfl
  have hn : ts.neutral_count = 7 - ts.bullish_count - ts.bearish_count := rfl
  omega

/-- Witness for C3 at a concrete one-bar series. -/
theorem full_analysis_tally_witness :
    1 ≤ [flatBar].length ∧
    (TA.get_full_analysis (TA.technicalFrame [flatBar]) "W").bullish_count +
      (TA.get_full_analysis (TA.technicalFrame [flatBar]) "W").bearish_count +
      (TA.get_full_analysis (TA.technicalFrame [flatBar]) "W").neutral_count = 7 :=
  ⟨by decide, (full_analysis_tally [flatBar] "W" (by decide)).2.2.2.2⟩

/-- Claim C2: `detect_stage` is a pure function of the latest bar's close
and its SMA30w/SMA40w/SMA50/SMA150/SMA200 values; it returns stage 2
exactly when all seven conjuncts hold (close>SMA30w, close>SMA40w,
SMA30w>SMA40w, close>SMA50, close>SMA150, close>SMA200, SMA50>SMA200),
otherwise stage 1 exactly when close<SMA30w and close>SMA40w, otherwise
stage 4 exactly when close<SMA30w and close<SMA40w, otherwise stage 3;
its `is_stage_2` flag is true exactly in the stage-2 case. -/
theorem detect_stage_spec (df : Kimi.KimiFrame) (qc m30 m40 m50 m150 m200 : Q)
    (hc : df.close (df.n - 1) = .fin qc)
    (h30 : df.SMA_30w (df.n - 1) = .fin m30)
    (h40 : df.SMA_40w (df.n - 1) = .fin m40)
    (h50 : df.SMA_50 (df.n - 1) = .fin m50)
    (h150 : df.SMA_150 (df.n - 1) = .fin m150)
    (h200 : df.SMA_200 (df.n - 1) = .fin m200) :
    let st := Kimi.detect_stage df
    let S2 : Prop := m30.toRat < qc.toRat ∧ m40.toRat < qc.toRat ∧
      m40.toRat < m30.toRat ∧ m50.toRat < qc.toRat ∧ m150.toRat < qc.toRat ∧
      m200.toRat < qc.toRat ∧ m200.toRat < m50.toRat
    (st.is_stage_2 = true ↔ S2) ∧
    (st.stage = 2 ↔ S2) ∧
    (st.stage = 1 ↔ ¬S2 ∧ qc.toRat < m30.toRat ∧ m40.toRat < qc.toRat) ∧
    (st.stage = 4 ↔ ¬S2 ∧ qc.toRat < m30.toRat ∧ qc.toRat < m40.toRat) ∧
    (st.stage = 3 ↔ ¬S2 ∧ ¬(qc.toRat < m30.toRat ∧ m40.toRat < qc.toRat) ∧
      ¬(qc.toRat < m30.toRat ∧ qc.toRat < m40.toRat)) ∧
    (∀ df' : Kimi.KimiFrame, df'.close (df'.n - 1) = .fin qc →
      df'.SMA_30w (df'.n - 1) = .fin m30 → df'.SMA_40w (df'.n - 1) = .fin m40 →
      df'.SMA_50 (df'.n - 1) = .fin m50 → df'.SMA_150 (df'.n - 1) = .fin m150 →
      df'.SMA_200 (df'.n - 1) = .fin m200 →
      Kimi.detect_stage df' = Kimi.detect_stage df) := by
  intro st S2
  have hst : st = (⟨FVal.gt (.fin qc) (.fin m30) && FVal.gt (.fin qc) (.fin m40) &&
      FVal.gt (.fin m30) (.fin m40) && FVal.gt (.fin qc) (.fin m50) &&
      FVal.gt (.fin qc) (.fin m150) && FVal.gt (.fin qc) (.fin m200) &&
      FVal.gt (.fin m50) (.fin m200),
      if FVal.gt (.fin qc) (.fin m30) && FVal.gt (.fin qc) (.fin m40) &&
          FVal.gt (.fin m30) (.fin m40) && FVal.gt (.fin qc) (.fin m50) &&
          FVal.gt (.fin qc) (.fin m150) && FVal.gt (.fin qc) (.fin m200) &&
          FVal.gt (.fin m50) (.fin m200) then 2
      else if FVal.lt (.fin qc) (.fin m30) && FVal.gt (.fin qc) (.fin m40) then 1
      else if FVal.lt (.fin qc) (.fin m30) && FVal.lt (.fin qc) (.fin m40) then 4
      else 3⟩ : Kimi.StageInfo) := by
    show Kimi.detect_stage df = _
    simp only [Kimi.detect_stage, hc, h30, h40, h50, h150, h200]
  have hB : (FVal.gt (.fin qc) (.fin m30) && FVal.gt (.fin qc) (.fin m40) &&
      FVal.gt (.fin m30) (.fin m40) && FVal.gt (.fin qc) (.fin m50) &&
      FVal.gt (.fin qc) (.fin m150) && FVal.gt (.fin qc) (.fin m200) &&
      FVal.gt (.fin m50) (.fin m200)) = true ↔ S2 := by
    simp only [Bool.and_eq_true, FVal.gt_fin_iff]
    unfold_let S2
    tauto
  have hb1 : (FVal.lt (.fin qc) (.fin m30) && FVal.gt (.fin qc) (.fin m40)) = true ↔
      (qc.toRat < m30.toRat ∧ m40.toRat < qc.toRat) := by
    simp only [Bool.and_eq_true, FVal.gt_fin_iff, FVal.lt_fin_iff]
  have hb4 : (FVal.lt (.fin qc) (.fin m30) && FVal.lt (.fin qc) (.fin m40)) = true ↔
      (qc.toRat < m30.toRat ∧ qc.toRat < m40.toRat) := by
    simp only [Bool.and_eq_true, FVal.lt_fin_iff]
  obtain ⟨B2, hB2⟩ : ∃ b, (FVal.gt (.fin qc) (.fin m30) && FVal.gt (.fin qc) (.fin m40) &&
      FVal.gt (.fin m30) (.fin m40) && FVal.gt (.fin qc) (.fin m50) &&
      FVal.gt (.fin qc) (.fin m150) && FVal.gt (.fin qc) (.fin m200) &&
      FVal.gt (.fin m50) (.fin m200)) = b := ⟨_, rfl⟩
  obtain ⟨B1, hB1⟩ : ∃ b, (FVal.lt (.fin qc) (.fin m30) && FVal.gt (.fin qc) (.fin m40)) = b :=
    ⟨_, rfl⟩
  obtain ⟨B4, hB4⟩ : ∃ b, (FVal.lt (.fin qc) (.fin m30) && FVal.lt (.fin qc) (.fin m40)) = b :=
    ⟨_, rfl⟩
  rw [hB2] at hst hB
  rw [hB1] at hst hb1
  rw [hB4] at hst hb4
  refine ⟨?_, ?_, ?_, ?_, ?_, ?_⟩
  · rw [hst]
    exact hB
  · rw [hst]
    clear hst hB2 hB1 hB4 hc h30 h40 h50 h150 h200
    cases B2 <;> cases B1 <;> cases B4 <;> simp_all <;>
      first
      | tauto
      | linarith
      | (intro hs2; have := hB.mpr hs2; linarith)
  · rw [hst]
    clear hst hB2 hB1 hB4 hc h30 h40 h50 h150 h200
    cases B2 <;> cases B1 <;> cases B4 <;> simp_all <;>
      first
      | tauto
      | linarith
      | (intro hs2; have := hB.mpr hs2; linarith)
  · rw [hst]
    clear hst hB2 hB1 hB4 hc h30 h40 h50 h150 h200
    cases B2 <;> cases B1 <;> cases B4 <;> simp_all <;>
      first
      | tauto
      | linarith
      | (intro hs2; have := hB.mpr hs2; linarith)
  · rw [hst]
    clear hst hB2 hB1 hB4 hc h30 h40 h50 h150 h200
    cases B2 <;> cases B1 <;> cases B4 <;> simp_all <;>
      first
      | tauto
      | linarith
      | (intro hs2; have := hB.mpr hs2; linarith)
  · intro df' h1 h2 h3 h4 h5 h6
    show Kimi.detect_stage df' = Kimi.detect_stage df
    simp only [Kimi.detect_stage, h1, h2, h3, h4, h5, h6, hc, h30, h40, h50, h150, h200]

/-- Witness for C2 at a concrete frame (close 10, SMA30w 12, SMA40w 9):
the classifier reports stage 1. -/
theorem detect_stage_spec_witness : (Kimi.detect_stage stageFrame).stage = 1 := by
  have h := (detect_stage_spec stageFrame (Q.qOf 10 1) (Q.qOf 12 1) (Q.qOf 9 1)
    (Q.qOf 0 1) (Q.qOf 0 1) (Q.qOf 0 1) rfl rfl rfl rfl rfl rfl).2.2.1
  have h10 : (Q.qOf 10 1).toRat = 10 := by rw [Q.toRat_qOf _ _ one_pos]; norm_num
  have h12 : (Q.qOf 12 1).toRat = 12 := by rw [Q.toRat_qOf _ _ one_pos]; norm_num
  have h9 : (Q.qOf 9 1).toRat = 9 := by rw [Q.toRat_qOf _ _ one_pos]; norm_num
  have h0 : (Q.qOf 0 1).toRat = 0 := by rw [Q.toRat_qOf _ _ one_pos]; norm_num
  rw [h, h10, h12, h9, h0]
  norm_num

/-- Claim C10: neither component mutates the caller's DataFrame — both
constructors copy before assigning columns (so the caller's heap cell is
untouched), and the analyze/summarise calls are pure reads. -/
theorem no_mutation (h : Heap) (r : ℕ) (hr : r < h.length) :
    (calculate_indicators_heap h r).1.getD r (.rawDF []) = h.getD r (.rawDF []) ∧
    (mkAnalyzer_heap h r).1.getD r (.rawDF []) = h.getD r (.rawDF []) ∧
    (∀ r', (analyze_rsi_heap h r').1 = h) ∧
    (∀ r' sym, (get_full_analysis_heap h r' sym).1 = h) := by
  have key : ∀ v w : PyObj,
      ((h ++ [v]).set h.length w).getD r (.rawDF []) = h.getD r (.rawDF []) := by
    intro v w
    rw [List.getD_eq_getElem?_getD, List.getD_eq_getElem?_getD]
    rw [List.getElem?_set_ne (by omega)]
    rw [List.getElem?_append, if_pos hr]
  exact ⟨key _ _, key _ _, fun _ => rfl, fun _ _ => rfl⟩

/-- Witness for C10 on a one-cell heap. -/
theorem no_mutation_witness :
    0 < heap1.length ∧
    (calculate_indicators_heap heap1 0).1.getD 0 (.rawDF []) = heap1.getD 0 (.rawDF []) :=
  ⟨by decide, (no_mutation heap1 0 (by decide)).1⟩


theorem scanLoop_foldl (evalSym : String → Except String (List Kimi.StrategySignal))
    (symbols : List String) (acc : List Kimi.StrategySignal × ℕ) :
    List.foldl
      (fun acc s =>
        match evalSym s with
        | .ok sigs => (acc.1 ++ sigs, acc.2 + 1)
        | .error _ => acc)
      acc symbols =
      (acc.1 ++ symbols.flatMap (okSigs evalSym),
        acc.2 + symbols.countP (okB evalSym)) := by
  induction symbols generalizing acc with
  | nil => simp
  | cons s rest ih =>
      rw [List.foldl_cons]
      cases hev : evalSym s with
      | ok sigs =>
          rw [ih]
          simp [okSigs, okB, hev, List.countP_cons]
          omega
      | error e =>
          rw [ih]
          simp [okSigs, okB, hev, List.countP_cons]

theorem scanAllWith_eq (evalSym : String → Except String (List Kimi.StrategySignal))
    (symbols : List String) :
    Kimi.scanAllWith evalSym symbols =
      ⟨symbols.countP (okB evalSym),
        (Kimi.stableSort Kimi.sigLE (symbols.flatMap (okSigs evalSym))).length,
        Kimi.stableSort Kimi.sigLE (symbols.flatMap (okSigs evalSym))⟩ := by
  unfold Kimi.scanAllWith
  by_cases hemp : symbols.isEmpty
  · have h0 : symbols = [] := List.isEmpty_iff.mp hemp
    subst h0
    simp [Kimi.stableSort]
  · rw [if_neg hemp]
    show (⟨(Kimi.scanLoop evalSym symbols).2, _, _⟩ : Kimi.ScanResult) = _
    unfold Kimi.scanLoop
    rw [scanLoop_foldl]
    simp

theorem countP_filter_ne (evalSym : String → Except String (List Kimi.StrategySignal))
    (x : String) (hx : okB evalSym x = false) (l : List String) :
    (l.filter (fun s => !(s == x))).countP (okB evalSym) = l.countP (okB evalSym) := by
  induction l with
  | nil => rfl
  | cons s rest ih =>
      by_cases hs : s = x
      · subst hs
        rw [List.filter_cons]
        simp only [beq_self_eq_true, Bool.not_true, Bool.false_eq_true, if_false]
        rw [List.countP_cons, ih, hx]
        simp
      · rw [List.filter_cons]
        have : (!(s == x)) = true := by simp [hs]
        rw [if_pos this, List.countP_cons, List.countP_cons, ih]

theorem flatMap_filter_ne (evalSym : String → Except String (List Kimi.StrategySignal))
    (x : String) (hx : okSigs evalSym x = []) (l : List String) :
    (l.filter (fun s => !(s == x))).flatMap (okSigs evalSym) =
      l.flatMap (okSigs evalSym) := by
  induction l with
  | nil => rfl
  | cons s rest ih =>
      by_cases hs : s = x
      · subst hs
        rw [List.filter_cons]
        simp only [beq_self_eq_true, Bool.not_true, Bool.false_eq_true, if_false]
        rw [List.flatMap_cons, ih, hx]
        simp
      · rw [List.filter_cons]
        have : (!(s == x)) = true := by simp [hs]
        rw [if_pos this, List.flatMap_cons, List.flatMap_cons, ih]

/-- Claim C6: during `scan_all`, a symbol whose evaluation raises
contributes no signals and is not counted, every other symbol is still
evaluated, and the result still carries the scanned count and the sorted
signals of all non-failing symbols — one failure never aborts the
batch. -/
theorem scan_isolation (evalSym : String → Except String (List Kimi.StrategySignal))
    (symbols : List String) (x e : String) (hx : evalSym x = .error e) :
    Kimi.scanAllWith evalSym symbols =
      Kimi.scanAllWith evalSym (symbols.filter (fun s => !(s == x))) ∧
    (Kimi.scanAllWith evalSym symbols).total_scanned = symbols.countP (okB evalSym) ∧
    (Kimi.scanAllWith evalSym symbols).signals =
      Kimi.stableSort Kimi.sigLE (symbols.flatMap (okSigs evalSym)) := by
  have hokB : okB evalSym x = false := by simp [okB, hx]
  have hokS : okSigs evalSym x = [] := by simp [okSigs, hx]
  refine ⟨?_, ?_, ?_⟩
  · rw [scanAllWith_eq, scanAllWith_eq,
      countP_filter_ne evalSym x hokB symbols,
      flatMap_filter_ne evalSym x hokS symbols]
  · rw [scanAllWith_eq]
  · rw [scanAllWith_eq]

/-- Witness for C6: with an evaluator that raises on `"BAD"`, scanning
`["A", "BAD"]` equals scanning with `"BAD"` removed. -/
theorem scan_isolation_witness :
    evalBad "BAD" = .error "boom" ∧
    Kimi.scanAllWith evalBad ["A", "BAD"] =
      Kimi.scanAllWith evalBad (["A", "BAD"].filter (fun s => !(s == "BAD"))) :=
  ⟨rfl, (scan_isolation evalBad ["A", "BAD"] "BAD" "boom" rfl).1⟩

/-- Counterexample to C5 as stated: with the symbols literally named X
and Y (so X precedes Y alphabetically), the HIGH-confidence tie is broken
by ascending symbol, so X's HIGH signal comes first — the output is not
the claimed [Y-HIGH, X-HIGH, X-MEDIUM]. -/
theorem scan_sort_counterexample :
    okSigs evalXY "X" = [mkSig "X" "HIGH", mkSig "X" "MEDIUM"] ∧
    okSigs evalXY "Y" = [mkSig "Y" "HIGH"] ∧
    okSigs evalXY "Z" = [] ∧
    (Kimi.scanAllWith evalXY ["X", "Y", "Z"]).signals =
      [mkSig "X" "HIGH", mkSig "Y" "HIGH", mkSig "X" "MEDIUM"] ∧
    (Kimi.scanAllWith evalXY ["X", "Y", "Z"]).signals ≠
      [mkSig "Y" "HIGH", mkSig "X" "HIGH", mkSig "X" "MEDIUM"] := by
  decide

/-- Claim C5 (amended): every scan's signal list is sorted by ascending
confidence rank (HIGH=0, MEDIUM=1, LOW=2) and, within equal confidence,
by ascending symbol name; in the three-symbol scenario the order
[Y-HIGH, X-HIGH, X-MEDIUM] holds when Y's symbol precedes X's
alphabetically (here Y = "ABE", X = "XEN"). -/
theorem scan_sort_spec :
    (∀ (evalSym : String → Except String (List Kimi.StrategySignal))
        (symbols : List String),
      (Kimi.scanAllWith evalSym symbols).signals.Pairwise (fun a b =>
        Kimi.confidence_order a.confidence < Kimi.confidence_order b.confidence ∨
          (Kimi.confidence_order a.confidence = Kimi.confidence_order b.confidence ∧
            Kimi.symLE a.symbol b.symbol = true))) ∧
    (Kimi.scanAllWith evalYfirst ["XEN", "ABE", "NIL"]).signals =
      [mkSig "ABE" "HIGH", mkSig "XEN" "HIGH", mkSig "XEN" "MEDIUM"] := by
  constructor
  · intro evalSym symbols
    rw [scanAllWith_eq]
    have hp := Kimi.pairwise_stableSort Kimi.sigLE Kimi.sigLE_total Kimi.sigLE_trans
      (symbols.flatMap (okSigs evalSym))
    refine hp.imp ?_
    intro a b hab
    unfold Kimi.sigLE at hab
    rw [Bool.or_eq_true, Bool.and_eq_true, decide_eq_true_iff, decide_eq_true_iff] at hab
    unfold Kimi.symLE
    tauto
  · decide

set_option maxRecDepth 200000 in
/-- Claim C9: on a flat series of 300 identical bars the RSI division by
a zero average loss is handled, not raised — `analyze_rsi` returns the
NEUTRAL "Insufficient data" result with value 0 — and `scan_symbol` on
that series produces no strategy signals. -/
theorem flat_series_safety :
    TA.analyze_rsi (TA.technicalFrame flat300) =
      ⟨"RSI", fv 0 1, TA.Signal.NEUTRAL, "Insufficient data"⟩ ∧
    Kimi.scan_symbol (fun _ => some flat300) "FLAT" = [] := by
  decide

namespace PandasOps

theorem rollingMin_nan_of_short (w : ℕ) (x : Col) (i : ℕ) (h : i + 1 < w) :
    rollingMin w x i = .nan := by
  simp [rollingMin, h]

theorem rollingMean_nan_of_nan_entry (w : ℕ) (x : Col) (i k : ℕ) (hk : k < w)
    (hx : x (i + 1 - w + k) = .nan) : rollingMean w x i = .nan := by
  by_cases hshort : i + 1 < w
  · exact rollingMean_nan_of_short w x i hshort
  · have hmem : FVal.nan ∈ window w x i := by
      rw [mem_window]
      exact ⟨k, hk, hx⟩
    have hany : (window w x i).any FVal.isNaN = true :=
      List.any_eq_true.mpr ⟨FVal.nan, hmem, rfl⟩
    simp [rollingMean, hshort, hany]

end PandasOps

theorem fv_fin (n d : ℤ) : fv n d = FVal.fin (Q.qOf n d) := rfl

/-- The `dx` formula of `_calculate_adx` is NaN whenever `plus_di` is. -/
theorem dx_chain_nan (P c : FVal) (hP : P = .nan) :
    FVal.div (FVal.mul (fv 100 1) (FVal.fabs (FVal.sub P c))) (FVal.add P c) = .nan := by
  subst hP
  simp

/-- The term `100 * (m / atr)` is NaN whenever the rolled mean `m` is. -/
theorem mul_div_nan_left (x y : FVal) (hx : x = .nan) :
    FVal.mul (fv 100 1) (FVal.div x y) = .nan := by
  subst hx
  simp

/-- The rolled `plus_dm` of `_calculate_adx` is NaN at every index `≤ 13`:
`high.diff()` puts NaN at row 0, the masked assignment keeps it, and every
14-window ending at or before index 13 is incomplete or contains row 0. -/
theorem pdm_rollingMean_nan (s : List Bar) (j : ℕ) (hj : j ≤ 13) :
    PandasOps.rollingMean 14
      (PandasOps.maskAssign
        (fun i => FVal.lt (PandasOps.diffC (highCol s) i) (fv 0 1))
        (PandasOps.diffC (highCol s)) (fv 0 1)) j = .nan := by
  by_cases hshort : j + 1 < 14
  · exact PandasOps.rollingMean_nan_of_short _ _ _ hshort
  · have hj13 : j = 13 := by omega
    subst hj13
    apply PandasOps.rollingMean_nan_of_nan_entry 14 _ 13 0 (by norm_num)
    simp [PandasOps.maskAssign, PandasOps.diffC, FVal.lt]

/-- Counterexample to C4 as stated: on an empty DataFrame that has all
five required columns, the constructor still raises (the pandas
length-mismatch of the `obv` column assignment), so "raises if and only
if a column is absent" is false. -/
theorem mk_analyzer_empty_counterexample :
    TA.mkTechnicalAnalyzer emptyAllCols =
      .error "Length of values (1) does not match length of index (0)" ∧
    emptyAllCols.hasOpen = true ∧ emptyAllCols.hasHigh = true ∧
    emptyAllCols.hasLow = true ∧ emptyAllCols.hasClose = true ∧
    emptyAllCols.hasVolume = true :=
  ⟨rfl, rfl, rfl, rfl, rfl, rfl⟩

/-- Claim C4 (amended): constructing a `TechnicalAnalyzer` fails exactly
when a required OHLCV column is absent or the frame is empty; on every
nonempty series with all five columns, construction succeeds (no
`analyze_*` raises — each is a total function of the constructed frame),
and every indicator whose lookback window exceeds the available history
returns the value-0 NEUTRAL "Insufficient data" result. -/
theorem analyzer_errors_and_insufficiency (rf : TA.RawFrame) (s : List Bar)
    (hs : s ≠ []) :
    ((∃ f, TA.mkTechnicalAnalyzer rf = .ok f) ↔
      (rf.hasOpen = true ∧ rf.hasHigh = true ∧ rf.hasLow = true ∧
        rf.hasClose = true ∧ rf.hasVolume = true ∧ rf.bars ≠ [])) ∧
    TA.mkTechnicalAnalyzer ⟨s, true, true, true, true, true⟩ =
      .ok (TA.technicalFrame s) ∧
    (s.length < 14 → TA.analyze_rsi (TA.technicalFrame s) =
      ⟨"RSI", fv 0 1, TA.Signal.NEUTRAL, "Insufficient data"⟩) ∧
    (s.length < 50 → TA.analyze_moving_averages (TA.technicalFrame s) =
      ⟨"Moving Averages", fv 0 1, TA.Signal.NEUTRAL, "Insufficient data"⟩) ∧
    (s.length < 20 → TA.analyze_bollinger_bands (TA.technicalFrame s) =
      ⟨"Bollinger Bands", fv 0 1, TA.Signal.NEUTRAL, "Insufficient data"⟩) ∧
    (s.length < 14 → TA.analyze_stochastic (TA.technicalFrame s) =
      ⟨"Stochastic", fv 0 1, TA.Signal.NEUTRAL, "Insufficient data"⟩) ∧
    (s.length < 28 → TA.analyze_adx (TA.technicalFrame s) =
      ⟨"ADX", fv 0 1, TA.Signal.NEUTRAL, "Insufficient data"⟩) ∧
    (s.length < 20 → TA.analyze_volume (TA.technicalFrame s) =
      ⟨"Volume", fv 0 1, TA.Signal.NEUTRAL, "Insufficient data"⟩) := by
  have hlen : 1 ≤ s.length := List.length_pos.mpr hs
  refine ⟨?_, ?_, ?_, ?_, ?_, ?_, ?_, ?_⟩
  · rcases rf with ⟨bars, o, hi, lo, cl, vo⟩
    cases o <;> cases hi <;> cases lo <;> cases cl <;> cases vo <;>
      cases bars <;> simp [TA.mkTechnicalAnalyzer]
  · cases s with
    | nil => exact absurd rfl hs
    | cons b bs => rfl
  · intro h14
    have hnan : (TA.technicalFrame s).rsi (s.length - 1) = .nan := by
      simp only [TA.technicalFrame]
      rw [PandasOps.rollingMean_nan_of_short 14 _ (s.length - 1) (by omega)]
      simp
    unfold TA.analyze_rsi
    have hn : (TA.technicalFrame s).n = s.length := rfl
    rw [hn, hnan]
    rfl
  · intro h50
    have hnan : (TA.technicalFrame s).sma_50 (s.length - 1) = .nan := by
      simp only [TA.technicalFrame]
      exact PandasOps.rollingMean_nan_of_short 50 _ (s.length - 1) (by omega)
    unfold TA.analyze_moving_averages
    have hn : (TA.technicalFrame s).n = s.length := rfl
    rw [hn, hnan]
    rfl
  · intro h20
    have hnan : (TA.technicalFrame s).bb_upper (s.length - 1) = .nan := by
      simp only [TA.technicalFrame]
      rw [PandasOps.rollingMean_nan_of_short 20 _ (s.length - 1) (by omega)]
      simp
    unfold TA.analyze_bollinger_bands
    have hn : (TA.technicalFrame s).n = s.length := rfl
    rw [hn, hnan]
    rfl
  · intro h14
    have hnan : (TA.technicalFrame s).stoch_k (s.length - 1) = .nan := by
      simp only [TA.technicalFrame]
      rw [PandasOps.rollingMin_nan_of_short 14 _ (s.length - 1) (by omega)]
      simp
    unfold TA.analyze_stochastic
    have hn : (TA.technicalFrame s).n = s.length := rfl
    rw [hn, hnan]
    rfl
  · intro h28
    have hnan : (TA.technicalFrame s).adx (s.length - 1) = .nan := by
      simp only [TA.technicalFrame]
      apply PandasOps.rollingMean_nan_of_nan_entry 14 _ (s.length - 1) 0 (by norm_num)
      apply dx_chain_nan
      apply mul_div_nan_left
      exact pdm_rollingMean_nan s _ (by omega)
    unfold TA.analyze_adx
    have hn : (TA.technicalFrame s).n = s.length := rfl
    rw [hn, hnan]
    rfl
  · intro h20
    have hnan : (TA.technicalFrame s).volume_sma (s.length - 1) = .nan := by
      simp only [TA.technicalFrame]
      exact PandasOps.rollingMean_nan_of_short 20 _ (s.length - 1) (by omega)
    unfold TA.analyze_volume
    have hn : (TA.technicalFrame s).n = s.length := rfl
    rw [hn, hnan]
    rfl

/-- Witness for C4 at a one-bar series: construction succeeds and RSI,
stochastic and ADX report insufficient data. -/
theorem analyzer_errors_and_insufficiency_witness :
    [flatBar] ≠ [] ∧
    TA.mkTechnicalAnalyzer ⟨[flatBar], true, true, true, true, true⟩ =
      .ok (TA.technicalFrame [flatBar]) ∧
    TA.analyze_rsi (TA.technicalFrame [flatBar]) =
      ⟨"RSI", fv 0 1, TA.Signal.NEUTRAL, "Insufficient data"⟩ ∧
    TA.analyze_adx (TA.technicalFrame [flatBar]) =
      ⟨"ADX", fv 0 1, TA.Signal.NEUTRAL, "Insufficient data"⟩ :=
  ⟨by decide,
    (analyzer_errors_and_insufficiency ⟨[flatBar], true, true, true, true, true⟩
      [flatBar] (by decide)).2.1,
    (analyzer_errors_and_insufficiency ⟨[flatBar], true, true, true, true, true⟩
      [flatBar] (by decide)).2.2.1 (by decide),
    (analyzer_errors_and_insufficiency ⟨[flatBar], true, true, true, true, true⟩
      [flatBar] (by decide)).2.2.2.2.2.2.1 (by decide)⟩

/-- Claim C7: `strategy_monthly_trend` returns no signal for series
shorter than 252 bars; for longer series it fires exactly when
close > SMA50 > SMA200, SMA200 today exceeds its value ~63 bars earlier,
the 6-month return exceeds 25, the close is within 3% of SMA50, and
ADX > 20; every signal has entry = close, stop = SMA200,
target = entry × 1.60, and confidence MEDIUM. -/
theorem monthly_trend_spec (s : List Bar) (sym : String) :
    let df := Kimi.calculate_indicators s
    df.n = s.length ∧
    Kimi.strategy_monthly_trend df sym =
      (if (decide (252 ≤ df.n) &&
          (FVal.gt (df.close (df.n - 1)) (df.SMA_50 (df.n - 1)) &&
            FVal.gt (df.SMA_50 (df.n - 1)) (df.SMA_200 (df.n - 1)) &&
            FVal.gt (df.SMA_200 (df.n - 1)) (df.SMA_200 (df.n - 63))) &&
          FVal.gt (df.Returns_6m (df.n - 1)) (fv 25 1) &&
          FVal.lt (FVal.fabs (FVal.sub
            (FVal.div (df.close (df.n - 1)) (df.SMA_50 (df.n - 1))) (fv 1 1))) (fv 3 100) &&
          FVal.gt (df.ADX (df.n - 1)) (fv 20 1))
      then some
        { symbol := sym
          strategy := "monthly_trend"
          signal := "BUY"
          entry := df.close (df.n - 1)
          stop := df.SMA_200 (df.n - 1)
          target := FVal.mul (df.close (df.n - 1)) (fv 160 100)
          risk_pct := FVal.div
            (FVal.sub (df.close (df.n - 1)) (df.SMA_200 (df.n - 1))) (df.close (df.n - 1))
          returns_6m := df.Returns_6m (df.n - 1)
          rsi := df.RSI (df.n - 1)
          adx := df.ADX (df.n - 1)
          confidence := "MEDIUM" }
      else none) := by
  intro df
  refine ⟨rfl, ?_⟩
  by_cases h252 : df.n < 252
  · have hd : decide (252 ≤ df.n) = false := by
      rw [decide_eq_false_iff_not]
      omega
    rw [hd]
    simp only [Bool.false_and, Bool.false_eq_true, if_false]
    simp only [Kimi.strategy_monthly_trend, if_pos h252]
  · have hd : decide (252 ≤ df.n) = true := decide_eq_true (by omega)
    rw [hd, Bool.true_and]
    simp only [Kimi.strategy_monthly_trend, if_neg h252]

/-- Claim C1: for every series of at least 200 bars (with positive close
prices, per the data model), `strategy_stage2_breakout` fires exactly
when the Stage-2 classification holds, the 20-period volume ratio
exceeds 2, the close is within 10% of the 52-week high
(`Pct_from_52w_high > -10`), ADX exceeds 25 and RSI is below 70; the
signal has entry = close, stop = 0.95 × SMA30w, target = entry × 1.40,
risk-reward = 0.40 / ((entry − stop)/entry), and confidence HIGH exactly
when the volume ratio exceeds 3, else MEDIUM. -/
theorem stage2_breakout_spec (s : List Bar) (sym : String)
    (h200 : 200 ≤ s.length) (hpos : ∀ b ∈ s, 0 < b.close.toRat) :
    let df := Kimi.calculate_indicators s
    df.n = s.length ∧
    Kimi.strategy_stage2_breakout df sym =
      (if ((Kimi.detect_stage df).is_stage_2 &&
          FVal.gt (df.Vol_Ratio (df.n - 1)) (fv 2 1) &&
          FVal.gt (df.Pct52w (df.n - 1)) (fv (-10) 1) &&
          FVal.gt (df.ADX (df.n - 1)) (fv 25 1) &&
          FVal.lt (df.RSI (df.n - 1)) (fv 70 1))
      then some
        { symbol := sym
          strategy := "stage2_breakout"
          signal := "BUY"
          entry := df.close (df.n - 1)
          stop := FVal.mul (df.SMA_30w (df.n - 1)) (fv 95 100)
          target := FVal.mul (df.close (df.n - 1)) (fv 140 100)
          risk_reward := FVal.div (fv 40 100)
            (FVal.div
              (FVal.sub (df.close (df.n - 1))
                (FVal.mul (df.SMA_30w (df.n - 1)) (fv 95 100)))
              (df.close (df.n - 1)))
          rsi := df.RSI (df.n - 1)
          adx := df.ADX (df.n - 1)
          vol_ratio := df.Vol_Ratio (df.n - 1)
          pct_from_high := df.Pct52w (df.n - 1)
          stage := (Kimi.detect_stage df).stage
          confidence := if FVal.gt (df.Vol_Ratio (df.n - 1)) (fv 3 1) then "HIGH"
            else "MEDIUM" }
      else none) := by
  intro df
  have hn : df.n = s.length := rfl
  refine ⟨rfl, ?_⟩
  by_cases hc : ((Kimi.detect_stage df).is_stage_2 &&
      FVal.gt (df.Vol_Ratio (df.n - 1)) (fv 2 1) &&
      FVal.gt (df.Pct52w (df.n - 1)) (fv (-10) 1) &&
      FVal.gt (df.ADX (df.n - 1)) (fv 25 1) &&
      FVal.lt (df.RSI (df.n - 1)) (fv 70 1)) = true
  · rw [if_pos hc]
    have hA : (Kimi.detect_stage df).is_stage_2 = true := by
      have h := hc
      simp only [Bool.and_eq_true] at h
      exact h.1.1.1.1
    have hgt30 : FVal.gt (df.close (df.n - 1)) (df.SMA_30w (df.n - 1)) = true := by
      have h := hA
      simp only [Kimi.detect_stage, Bool.and_eq_true] at h
      exact h.1.1.1.1.1.1
    -- SMA_30w at the last row: a complete 150-window mean of positive closes
    have hsma : ∃ m : Q, df.SMA_30w (df.n - 1) = .fin m ∧ 0 < m.toRat := by
      show ∃ m : Q, PandasOps.rollingMean 150 (closeCol s) (df.n - 1) = .fin m ∧ _
      apply PandasOps.rollingMean_pos 150 (closeCol s) (df.n - 1) (by norm_num)
        (by omega)
      intro j hj
      refine ⟨(s.getD j default).close, rfl, ?_⟩
      have hjlt : j < s.length := by omega
      rw [List.getD_eq_getElem s default hjlt]
      exact hpos _ (List.getElem_mem hjlt)
    obtain ⟨m, hm, hm0⟩ := hsma
    have hcur : df.close (df.n - 1) = .fin (s.getD (df.n - 1) default).close := rfl
    have hcpos : 0 < (s.getD (df.n - 1) default).close.toRat := by
      have hjlt : df.n - 1 < s.length := by omega
      rw [List.getD_eq_getElem s default hjlt]
      exact hpos _ (List.getElem_mem hjlt)
    have hlt : m.toRat < (s.getD (df.n - 1) default).close.toRat := by
      rw [hcur, hm] at hgt30
      exact (FVal.gt_fin_iff _ _).mp hgt30
    have hcnum : (s.getD (df.n - 1) default).close.num ≠ 0 :=
      Q.num_ne_zero_of_toRat_pos hcpos
    have hq95 : (Q.qOf 95 100).toRat = 95 / 100 := by
      rw [Q.toRat_qOf _ _ (by norm_num)]
      norm_num
    have hrisk : FVal.div
        (FVal.sub (df.close (df.n - 1))
          (FVal.mul (df.SMA_30w (df.n - 1)) (fv 95 100)))
        (df.close (df.n - 1)) =
        .fin (((s.getD (df.n - 1) default).close.sub (m.mul (Q.qOf 95 100))).div
          (s.getD (df.n - 1) default).close) := by
      rw [hcur, hm]
      simp only [fv_fin]
      rw [FVal.mul_fin, FVal.sub_fin]
      exact FVal.div_fin _ _ hcnum
    have hriskpos : 0 <
        (((s.getD (df.n - 1) default).close.sub (m.mul (Q.qOf 95 100))).div
          (s.getD (df.n - 1) default).close).toRat := by
      rw [Q.toRat_div _ _ hcnum, Q.toRat_sub, Q.toRat_mul, hq95]
      apply div_pos
      · nlinarith [hm0, hlt]
      · exact hcpos
    have hgt0 : FVal.gt
        (FVal.div
          (FVal.sub (df.close (df.n - 1))
            (FVal.mul (df.SMA_30w (df.n - 1)) (fv 95 100)))
          (df.close (df.n - 1))) (fv 0 1) = true := by
      rw [hrisk]
      simp only [fv_fin]
      rw [FVal.gt_fin_iff, Q.toRat_qOf 0 1 one_pos]
      simpa using hriskpos
    simp only [Kimi.strategy_stage2_breakout, if_pos hc, hgt0, if_true]
  · rw [if_neg hc]
    simp only [Kimi.strategy_stage2_breakout, if_neg hc]

set_option maxRecDepth 200000 in
/-- Witness for C1 at the flat 300-bar series (where no signal fires). -/
theorem stage2_breakout_spec_witness :
    Kimi.strategy_stage2_breakout (Kimi.calculate_indicators flat300) "X" = none := by
  have hpos : ∀ b ∈ flat300, 0 < b.close.toRat := by
    intro b hb
    have hb' : b = flatBar := List.eq_of_mem_replicate hb
    subst hb'
    rw [show flatBar.close = Q.qOf 100 1 from rfl, Q.toRat_qOf _ _ one_pos]
    norm_num
  have h := (stage2_breakout_spec flat300 "X" (by decide) hpos).2
  rw [h]
  decide

/-- The RSI formula `100 - 100/(1 + G/L)` over a nonnegative-or-NaN gain
and loss: wherever it is not NaN it is a finite value in [0, 100]
(including the `loss = 0, gain > 0` case, where `G/L = +inf` gives
exactly 100). -/
theorem rsi_formula_bounds (G L : FVal)
    (hG : G = .nan ∨ ∃ g : Q, G = .fin g ∧ 0 ≤ g.toRat)
    (hL : L = .nan ∨ ∃ l : Q, L = .fin l ∧ 0 ≤ l.toRat)
    (hne : FVal.sub (fv 100 1) (FVal.div (fv 100 1)
      (FVal.add (fv 1 1) (FVal.div G L))) ≠ .nan) :
    ∃ q : Q, FVal.sub (fv 100 1) (FVal.div (fv 100 1)
      (FVal.add (fv 1 1) (FVal.div G L))) = .fin q ∧
      0 ≤ q.toRat ∧ q.toRat ≤ 100 := by
  rcases hG with rfl | ⟨g, rfl, hg0⟩
  · exact absurd (by simp) hne
  rcases hL with rfl | ⟨l, rfl, hl0⟩
  · exact absurd (by simp) hne
  by_cases hlz : l.num = 0
  · by_cases hgz : g.num = 0
    · refine absurd ?_ hne
      show FVal.sub _ (FVal.div _ (FVal.add _ (FVal.div (.fin g) (.fin l)))) = .nan
      rw [show FVal.div (.fin g) (.fin l) = .nan by
        simp only [FVal.div]
        rw [if_pos hlz, if_pos hgz]]
      simp
    · have hgpos : 0 < g.num :=
        lt_of_le_of_ne ((Q.toRat_nonneg_iff g).mp hg0) (Ne.symm hgz)
      rw [show FVal.div (.fin g) (.fin l) = .pinf by
        simp only [FVal.div]
        rw [if_pos hlz, if_neg hgz, if_neg (by omega)]]
      rw [show FVal.add (fv 1 1) FVal.pinf = .pinf from rfl]
      rw [show FVal.div (fv 100 1) FVal.pinf = .fin (Q.qOf 0 1) from rfl]
      rw [fv_fin, FVal.sub_fin]
      refine ⟨_, rfl, ?_, ?_⟩
      · rw [Q.toRat_sub, Q.toRat_qOf _ _ one_pos, Q.toRat_qOf _ _ one_pos]
        norm_num
      · rw [Q.toRat_sub, Q.toRat_qOf _ _ one_pos, Q.toRat_qOf _ _ one_pos]
        norm_num
  · have hlpos : 0 < l.toRat :=
      lt_of_le_of_ne hl0 (fun h => hlz ((Q.toRat_eq_zero_iff l).mp h.symm))
    rw [FVal.div_fin _ _ hlz]
    have hr0 : 0 ≤ (g.div l).toRat := by
      rw [Q.toRat_div _ _ hlz]
      exact div_nonneg hg0 hlpos.le
    have hadd : FVal.add (fv 1 1) (.fin (g.div l)) = .fin ((Q.qOf 1 1).add (g.div l)) := by
      rw [fv_fin, FVal.add_fin]
    rw [hadd]
    have h1r : 0 < ((Q.qOf 1 1).add (g.div l)).toRat := by
      rw [Q.toRat_add, Q.toRat_qOf _ _ one_pos]
      push_cast
      norm_num
      linarith
    have h1rnum : ((Q.qOf 1 1).add (g.div l)).num ≠ 0 := Q.num_ne_zero_of_toRat_pos h1r
    rw [fv_fin, FVal.div_fin _ _ h1rnum, FVal.sub_fin]
    refine ⟨_, rfl, ?_, ?_⟩
    · rw [Q.toRat_sub, Q.toRat_div _ _ h1rnum, Q.toRat_add,
        Q.toRat_qOf _ _ one_pos, Q.toRat_qOf _ _ one_pos]
      push_cast
      norm_num
      have h1 : (0 : ℚ) < 1 + (g.div l).toRat := by linarith
      rw [div_le_iff₀ h1]
      nlinarith
    · rw [Q.toRat_sub, Q.toRat_div _ _ h1rnum, Q.toRat_add,
        Q.toRat_qOf _ _ one_pos, Q.toRat_qOf _ _ one_pos]
      push_cast
      norm_num
      have h1 : (0 : ℚ) < 1 + (g.div l).toRat := by linarith
      have h3 : 0 < (100 : ℚ) / (1 + (g.div l).toRat) := by positivity
      linarith

/-- Entries of the where-clipped gain series are finite and
nonnegative (the NaN of `diff` at row 0 fails the `> 0` mask and is
replaced by 0). -/
theorem gain_entries (s : List Bar) (j : ℕ) :
    ∃ q : Q, PandasOps.whereC
      (fun i => FVal.gt (PandasOps.diffC (closeCol s) i) (fv 0 1))
      (PandasOps.diffC (closeCol s)) (fv 0 1) j = .fin q ∧ 0 ≤ q.toRat := by
  unfold PandasOps.whereC
  by_cases hgt : FVal.gt (PandasOps.diffC (closeCol s) j) (fv 0 1) = true
  · rw [if_pos hgt]
    cases j with
    | zero =>
        exfalso
        simp [PandasOps.diffC, FVal.gt, FVal.lt, fv_fin] at hgt
    | succ k =>
        have hd : PandasOps.diffC (closeCol s) (k + 1) =
            .fin ((s.getD (k + 1) default).close.sub (s.getD k default).close) := by
          simp [PandasOps.diffC, closeCol, FVal.sub_fin]
        rw [hd] at hgt ⊢
        refine ⟨_, rfl, ?_⟩
        rw [fv_fin, FVal.gt_fin_iff, Q.toRat_qOf 0 1 one_pos] at hgt
        norm_num at hgt
        simp only [List.getD_eq_getElem?_getD]
        linarith
  · rw [if_neg hgt]
    refine ⟨Q.qOf 0 1, fv_fin 0 1, ?_⟩
    rw [Q.toRat_qOf 0 1 one_pos]
    norm_num

/-- Entries of the negated where-clipped loss series are finite and
nonnegative. -/
theorem loss_entries (s : List Bar) (j : ℕ) :
    ∃ q : Q, FVal.neg (PandasOps.whereC
      (fun i => FVal.lt (PandasOps.diffC (closeCol s) i) (fv 0 1))
      (PandasOps.diffC (closeCol s)) (fv 0 1) j) = .fin q ∧ 0 ≤ q.toRat := by
  unfold PandasOps.whereC
  by_cases hlt : FVal.lt (PandasOps.diffC (closeCol s) j) (fv 0 1) = true
  · rw [if_pos hlt]
    cases j with
    | zero =>
        exfalso
        simp [PandasOps.diffC, FVal.lt] at hlt
    | succ k =>
        have hd : PandasOps.diffC (closeCol s) (k + 1) =
            .fin ((s.getD (k + 1) default).close.sub (s.getD k default).close) := by
          simp [PandasOps.diffC, closeCol, FVal.sub_fin]
        rw [hd] at hlt ⊢
        refine ⟨_, rfl, ?_⟩
        rw [fv_fin, FVal.lt_fin_iff, Q.toRat_qOf 0 1 one_pos] at hlt
        show 0 ≤ (Q.neg _).toRat
        rw [Q.toRat_neg]
        norm_num at hlt
        simp only [List.getD_eq_getElem?_getD]
        linarith
  · rw [if_neg hlt]
    refine ⟨(Q.qOf 0 1).neg, ?_, ?_⟩
    · rw [fv_fin]
      rfl
    · rw [Q.toRat_neg, Q.toRat_qOf 0 1 one_pos]
      norm_num

namespace PandasOps

/-- A complete rolling max over finite entries is finite and bounds each
window entry from above. -/
theorem rollingMax_fin (w : ℕ) (x : Col) (i : ℕ) (hw : 0 < w) (hiw : ¬i + 1 < w)
    (hx : ∀ j, ∃ q : Q, x j = .fin q) :
    ∃ m : Q, rollingMax w x i = .fin m ∧
      ∀ k, k < w → ∀ q : Q, x (i + 1 - w + k) = .fin q → q.toRat ≤ m.toRat := by
  have hwin : ∀ v ∈ window w x i, ∃ q : Q, v = .fin q := by
    intro v hv
    rw [mem_window] at hv
    obtain ⟨k, hk, hxv⟩ := hv
    obtain ⟨q, hq⟩ := hx (i + 1 - w + k)
    exact ⟨q, by rw [← hxv, hq]⟩
  have hnonan := window_no_nan w x i hwin
  have hne : window w x i ≠ [] := by
    intro h0
    have := window_length w x i
    rw [h0] at this
    simp at this
    omega
  obtain ⟨m, hm, hmax⟩ := FVal.foldr_maxF _ hne hwin
  refine ⟨m, ?_, ?_⟩
  · rw [rollingMax, if_neg hiw, if_neg (by rw [hnonan]; simp)]
    exact hm
  · intro k hk q hxq
    apply hmax
    rw [mem_window]
    exact ⟨k, hk, hxq⟩

/-- A complete rolling min over finite entries is finite and bounds each
window entry from below. -/
theorem rollingMin_fin (w : ℕ) (x : Col) (i : ℕ) (hw : 0 < w) (hiw : ¬i + 1 < w)
    (hx : ∀ j, ∃ q : Q, x j = .fin q) :
    ∃ m : Q, rollingMin w x i = .fin m ∧
      ∀ k, k < w → ∀ q : Q, x (i + 1 - w + k) = .fin q → m.toRat ≤ q.toRat := by
  have hwin : ∀ v ∈ window w x i, ∃ q : Q, v = .fin q := by
    intro v hv
    rw [mem_window] at hv
    obtain ⟨k, hk, hxv⟩ := hv
    obtain ⟨q, hq⟩ := hx (i + 1 - w + k)
    exact ⟨q, by rw [← hxv, hq]⟩
  have hnonan := window_no_nan w x i hwin
  have hne : window w x i ≠ [] := by
    intro h0
    have := window_length w x i
    rw [h0] at this
    simp at this
    omega
  obtain ⟨m, hm, hmin⟩ := FVal.foldr_minF _ hne hwin
  refine ⟨m, ?_, ?_⟩
  · rw [rollingMin, if_neg hiw, if_neg (by rw [hnonan]; simp)]
    exact hm
  · intro k hk q hxq
    apply hmin
    rw [mem_window]
    exact ⟨k, hk, hxq⟩

end PandasOps

/-- Wherever the Stochastic %K of the analyzer frame is defined it is a
finite value in [0, 100], provided each bar satisfies
`low ≤ close ≤ high`. -/
theorem stoch_k_bounds (s : List Bar)
    (hlc : ∀ j, (s.getD j default).low.toRat ≤ (s.getD j default).close.toRat)
    (hch : ∀ j, (s.getD j default).close.toRat ≤ (s.getD j default).high.toRat)
    (i : ℕ) (hne : (TA.technicalFrame s).stoch_k i ≠ .nan) :
    ∃ q : Q, (TA.technicalFrame s).stoch_k i = .fin q ∧
      0 ≤ q.toRat ∧ q.toRat ≤ 100 := by
  have hform : (TA.technicalFrame s).stoch_k i =
      FVal.div
        (FVal.mul (fv 100 1)
          (FVal.sub (closeCol s i) (PandasOps.rollingMin 14 (lowCol s) i)))
        (FVal.sub (PandasOps.rollingMax 14 (highCol s) i)
          (PandasOps.rollingMin 14 (lowCol s) i)) := rfl
  rw [hform] at hne ⊢
  by_cases hshort : i + 1 < 14
  · exfalso
    apply hne
    rw [PandasOps.rollingMin_nan_of_short _ _ _ hshort]
    simp
  obtain ⟨l14, hl14, hlmin⟩ :=
    PandasOps.rollingMin_fin 14 (lowCol s) i (by norm_num) hshort (fun j => ⟨_, rfl⟩)
  obtain ⟨h14, hh14, hhmax⟩ :=
    PandasOps.rollingMax_fin 14 (highCol s) i (by norm_num) hshort (fun j => ⟨_, rfl⟩)
  rw [hl14, hh14] at hne ⊢
  have hidx : i + 1 - 14 + 13 = i := by omega
  have hlow_i : l14.toRat ≤ (s.getD i default).low.toRat := by
    apply hlmin 13 (by norm_num)
    rw [hidx]
    rfl
  have hhigh_i : (s.getD i default).high.toRat ≤ h14.toRat := by
    apply hhmax 13 (by norm_num)
    rw [hidx]
    rfl
  have hcl : l14.toRat ≤ (s.getD i default).close.toRat := le_trans hlow_i (hlc i)
  have hch' : (s.getD i default).close.toRat ≤ h14.toRat := le_trans (hch i) hhigh_i
  have hcc : closeCol s i = .fin (s.getD i default).close := rfl
  rw [hcc, fv_fin, FVal.sub_fin, FVal.mul_fin, FVal.sub_fin] at hne ⊢
  by_cases hD : (h14.sub l14).num = 0
  · exfalso
    apply hne
    have hDrat : (h14.sub l14).toRat = 0 := (Q.toRat_eq_zero_iff _).mpr hD
    rw [Q.toRat_sub] at hDrat
    have hceq : (s.getD i default).close.toRat - l14.toRat = 0 := by linarith
    have hNrat : ((Q.qOf 100 1).mul ((s.getD i default).close.sub l14)).toRat = 0 := by
      rw [Q.toRat_mul, Q.toRat_sub, hceq, mul_zero]
    have hN : ((Q.qOf 100 1).mul ((s.getD i default).close.sub l14)).num = 0 :=
      (Q.toRat_eq_zero_iff _).mp hNrat
    simp only [FVal.div]
    rw [if_pos hD, if_pos hN]
  · rw [FVal.div_fin _ _ hD]
    have hDnn : 0 ≤ (h14.sub l14).toRat := by
      rw [Q.toRat_sub]
      linarith
    have hDpos : 0 < (h14.sub l14).toRat :=
      lt_of_le_of_ne hDnn (fun h => hD ((Q.toRat_eq_zero_iff _).mp h.symm))
    have hNnn : 0 ≤ ((Q.qOf 100 1).mul ((s.getD i default).close.sub l14)).toRat := by
      rw [Q.toRat_mul, Q.toRat_sub, Q.toRat_qOf _ _ one_pos]
      have h100 : (0 : ℚ) ≤ ((100 : ℤ) : ℚ) / ((1 : ℤ) : ℚ) := by positivity
      nlinarith
    refine ⟨_, rfl, ?_, ?_⟩
    · rw [Q.toRat_div _ _ hD]
      exact div_nonneg hNnn hDpos.le
    · rw [Q.toRat_div _ _ hD, div_le_iff₀ hDpos]
      rw [Q.toRat_mul, Q.toRat_sub, Q.toRat_sub, Q.toRat_qOf _ _ one_pos]
      push_cast
      nlinarith

/-- Claim C8: for every series whose bars satisfy
`high ≥ max(open, low, close)` and `low ≤ min(open, high, close)`, the
computed RSI is, wherever defined (not NaN), a finite value in [0, 100],
and the Stochastic %K and its 3-period smoothing %D are, wherever
defined, finite values in [0, 100]. -/
theorem rsi_stoch_bounds (s : List Bar)
    (hinv : ∀ b ∈ s,
      max (max b.opn.toRat b.low.toRat) b.close.toRat ≤ b.high.toRat ∧
      b.low.toRat ≤ min (min b.opn.toRat b.high.toRat) b.close.toRat) :
    (∀ i, (TA.technicalFrame s).rsi i ≠ .nan →
      ∃ q : Q, (TA.technicalFrame s).rsi i = .fin q ∧ 0 ≤ q.toRat ∧ q.toRat ≤ 100) ∧
    (∀ i, (TA.technicalFrame s).stoch_k i ≠ .nan →
      ∃ q : Q, (TA.technicalFrame s).stoch_k i = .fin q ∧ 0 ≤ q.toRat ∧ q.toRat ≤ 100) ∧
    (∀ i, (TA.technicalFrame s).stoch_d i ≠ .nan →
      ∃ q : Q, (TA.technicalFrame s).stoch_d i = .fin q ∧ 0 ≤ q.toRat ∧ q.toRat ≤ 100) := by
  have hlc : ∀ j, (s.getD j default).low.toRat ≤ (s.getD j default).close.toRat := by
    intro j
    by_cases hj : j < s.length
    · rw [List.getD_eq_getElem s default hj]
      have h := (hinv _ (List.getElem_mem hj)).2
      exact le_trans h (min_le_right _ _)
    · rw [List.getD_eq_default s default (le_of_not_lt hj)]
      exact le_refl _
  have hch : ∀ j, (s.getD j default).close.toRat ≤ (s.getD j default).high.toRat := by
    intro j
    by_cases hj : j < s.length
    · rw [List.getD_eq_getElem s default hj]
      have h := (hinv _ (List.getElem_mem hj)).1
      exact le_trans (le_max_right _ _) h
    · rw [List.getD_eq_default s default (le_of_not_lt hj)]
      exact le_refl _
  refine ⟨?_, stoch_k_bounds s hlc hch, ?_⟩
  · intro i hne
    have hform : (TA.technicalFrame s).rsi i =
        FVal.sub (fv 100 1) (FVal.div (fv 100 1) (FVal.add (fv 1 1)
          (FVal.div
            (PandasOps.rollingMean 14
              (PandasOps.whereC
                (fun k => FVal.gt (PandasOps.diffC (closeCol s) k) (fv 0 1))
                (PandasOps.diffC (closeCol s)) (fv 0 1)) i)
            (PandasOps.rollingMean 14
              (fun k => FVal.neg (PandasOps.whereC
                (fun j => FVal.lt (PandasOps.diffC (closeCol s) j) (fv 0 1))
                (PandasOps.diffC (closeCol s)) (fv 0 1) k)) i)))) := rfl
    rw [hform] at hne ⊢
    exact rsi_formula_bounds _ _
      (PandasOps.rollingMean_nonneg 14 _ i (by norm_num) (gain_entries s))
      (PandasOps.rollingMean_nonneg 14 _ i (by norm_num) (loss_entries s))
      hne
  · intro i hne
    have hform : (TA.technicalFrame s).stoch_d i =
        PandasOps.rollingMean 3 ((TA.technicalFrame s).stoch_k) i := rfl
    rw [hform] at hne ⊢
    rcases PandasOps.rollingMean_bounds 3 ((TA.technicalFrame s).stoch_k) i
      (by norm_num) 0 100
      (fun j hj => (stoch_k_bounds s hlc hch j hj)) with hnan | hok
    · exact absurd hnan hne
    · exact hok

/-- Witness for C8 on a concrete 16-bar series: the invariant holds, and
at the last index both RSI and the Stochastic %K are defined, so the
bounds apply. -/
theorem rsi_stoch_bounds_witness :
    (∀ b ∈ varied16,
      max (max b.opn.toRat b.low.toRat) b.close.toRat ≤ b.high.toRat ∧
      b.low.toRat ≤ min (min b.opn.toRat b.high.toRat) b.close.toRat) ∧
    (TA.technicalFrame varied16).rsi 15 ≠ .nan ∧
    (∃ q : Q, (TA.technicalFrame varied16).rsi 15 = .fin q ∧
      0 ≤ q.toRat ∧ q.toRat ≤ 100) ∧
    (TA.technicalFrame varied16).stoch_k 15 ≠ .nan ∧
    (∃ q : Q, (TA.technicalFrame varied16).stoch_k 15 = .fin q ∧
      0 ≤ q.toRat ∧ q.toRat ≤ 100) := by
  have hinv : ∀ b ∈ varied16,
      max (max b.opn.toRat b.low.toRat) b.close.toRat ≤ b.high.toRat ∧
      b.low.toRat ≤ min (min b.opn.toRat b.high.toRat) b.close.toRat := by
    intro b hb
    have : ∀ c : Q, b = priceBar c →
        max (max b.opn.toRat b.low.toRat) b.close.toRat ≤ b.high.toRat ∧
        b.low.toRat ≤ min (min b.opn.toRat b.high.toRat) b.close.toRat := by
      rintro c rfl
      constructor <;> simp [priceBar]
    fin_cases hb <;> exact this _ rfl
  refine ⟨hinv, by decide, (rsi_stoch_bounds varied16 hinv).1 15 (by decide),
    by decide, (rsi_stoch_bounds varied16 hinv).2.1 15 (by decide)⟩
